import Mathlib

/-!
Verification development for the OLI browser extension core
(scan → redact → annotate pipeline).

The embedding models JavaScript strings as `List Char` so that all string
operations are executable and provable.  Each definition mirrors one
function of the source:

* `anonymizer.ts`   — `DataAnonymizer` (token map, pattern replacement),
* `dom-scanner.ts`  — `DOMScanner` (mutation filtering, debounce),
* `content.js`      — highlighting engine (`cleanupHighlights`,
  `findBestMatchElement`, `findAndScrollToText`,
  `highlightExistingElement`, message handlers) and the panel-side
  `scanPage` highlight filter.
-/

set_option linter.unusedVariables false

namespace OLI

/-- JavaScript strings are modelled as lists of characters. -/
abbrev JSString := List Char

/-- Embed a Lean string literal into the model. -/
def js (s : String) : JSString := s.toList

/-- JS `\s` character class (space, tab, newlines, vertical tab, form feed,
no-break space). -/
def isSpaceJS (c : Char) : Bool :=
  c = ' ' || c = '\t' || c = '\n' || c = '\r' ||
  c = Char.ofNat 11 || c = Char.ofNat 12 || c = Char.ofNat 160

/-- JS `\w` character class: ASCII letters, digits and underscore. -/
def isWordChar (c : Char) : Bool :=
  c.isAlpha || c.isDigit || c = '_'

/-- JS `String.prototype.includes`: substring containment
(the empty string is contained in every string). -/
def containsSub (s pat : JSString) : Bool :=
  (List.range (s.length + 1)).any (fun i => pat.isPrefixOf (s.drop i))

/-- Leftmost index at which `pat` occurs in the scanned suffix,
counting from `i` (helper for `findSubIdx`). -/
def findSubIdxGo (pat : JSString) : JSString → Nat → Option Nat
  | [], i => if pat = [] then some i else none
  | c :: r, i =>
    if pat.isPrefixOf (c :: r) then some i else findSubIdxGo pat r (i + 1)

/-- Leftmost index of `pat` in `s` (JS `String.prototype.indexOf`). -/
def findSubIdx (s pat : JSString) : Option Nat := findSubIdxGo pat s 0

/-- One pass of global literal replacement, with fuel for termination;
scanning resumes after the replaced slice, as a JS global-regex
`replace` does. -/
def replaceAllGo (pat rep : JSString) : Nat → JSString → JSString
  | 0, s => s
  | fuel + 1, s =>
    match findSubIdx s pat with
    | none => s
    | some i => s.take i ++ rep ++ replaceAllGo pat rep fuel (s.drop (i + pat.length))

/-- Global replacement of a literal pattern, as `text.replace(/pat/g, rep)`
with an escaped pattern does. -/
def replaceAll (pat rep s : JSString) : JSString :=
  if pat = [] then s else replaceAllGo pat rep s.length s

/-- JS `String.prototype.trim` (strips `\s` on both ends). -/
def trimJS (s : JSString) : JSString :=
  ((s.dropWhile isSpaceJS).reverse.dropWhile isSpaceJS).reverse

/-- `text.replace(/\s+/g, ' ')`: collapse every whitespace run to one space. -/
def collapseWs : JSString → JSString
  | [] => []
  | c :: rest =>
    if isSpaceJS c then
      match rest with
      | [] => [' ']
      | c2 :: r2 =>
        if isSpaceJS c2 then collapseWs (c2 :: r2) else ' ' :: collapseWs (c2 :: r2)
    else c :: collapseWs rest

/-- `value.replace(/\s+/g, ' ').trim()`, the normalisation used by the
content script when comparing live values. -/
def normWs (s : JSString) : JSString := trimJS (collapseWs s)

/-- `text.replace(/\s+/g, '')`: delete all whitespace. -/
def stripSpaces (s : JSString) : JSString := s.filter (fun c => ¬ isSpaceJS c)

/-- `text.replace(/\s/g, ' ')`: whitespace to no-break spaces. -/
def nbspSpaces (s : JSString) : JSString :=
  s.map (fun c => if isSpaceJS c then Char.ofNat 160 else c)

/-- Fuel-driven worker for `normColons`; every step consumes at least one
character, so fuel equal to the length suffices. -/
def normColonsGo : Nat → JSString → JSString
  | 0, s => s
  | _ + 1, [] => []
  | f + 1, c :: rest =>
    if (c :: rest)[((c :: rest).takeWhile isSpaceJS).length]? = some ':' then
      js " : " ++
        normColonsGo f
          (((c :: rest).drop (((c :: rest).takeWhile isSpaceJS).length + 1)).dropWhile isSpaceJS)
    else c :: normColonsGo f rest

/-- `text.replace(/\s*:\s*/g, ' : ')`: normalise colons with single spaces. -/
def normColons (s : JSString) : JSString := normColonsGo s.length s

/-- Lower-case a modelled string (JS `toLowerCase`, ASCII fragment). -/
def lowerStr (s : JSString) : JSString := s.map Char.toLower

/-- First-occurrence de-duplication, as iterating a JS `Set` built from a
list yields insertion order. -/
def dedupFirst : List JSString → List JSString
  | [] => []
  | x :: xs => x :: (dedupFirst xs).filter (fun y => y ≠ x)

/-- Decimal digit character of a value below ten. -/
def digitChar : Nat → Char
  | 0 => '0' | 1 => '1' | 2 => '2' | 3 => '3' | 4 => '4'
  | 5 => '5' | 6 => '6' | 7 => '7' | 8 => '8' | _ => '9'

/-- Fuel-driven decimal rendering (the fuel strictly exceeds the value, so
it never runs out). -/
def natCharsGo : Nat → Nat → JSString
  | 0, _ => []
  | f + 1, n =>
    if n < 10 then [digitChar n]
    else natCharsGo f (n / 10) ++ [digitChar (n % 10)]

/-- Decimal representation of a natural number, as JS `${n}` renders it. -/
def natChars (n : Nat) : JSString := natCharsGo (n + 1) n

/-- Read a digit string back as a natural number. -/
def charsToNat (s : JSString) : Nat :=
  s.foldl (fun a c => 10 * a + (c.toNat - 48)) 0

/-- Association-list lookup by string key (JS `Map.prototype.get` on a map
kept in insertion order). -/
def alookup {α : Type} : List (JSString × α) → JSString → Option α
  | [], _ => none
  | p :: ps, k => if p.1 = k then some p.2 else alookup ps k

/-! ## Redaction engine (`anonymizer.ts`, class `DataAnonymizer`) -/

/-- One entry of `tokenMap`: `{original, type, token}`. -/
structure TokenInfo where
  original : JSString
  ttype : JSString
  token : JSString
deriving DecidableEq, Repr

/-- The `DataAnonymizer` mutable state: `tokenMap` (token → info),
`reverseMap` (original → token), `tokenCounter`.  Both maps are kept in
insertion order, as JS `Map`s are. -/
structure AnonState where
  tokenMap : List (JSString × TokenInfo)
  reverseMap : List (JSString × JSString)
  tokenCounter : Nat
deriving DecidableEq, Repr

/-- The constructor / `reset()` state: empty maps, counter zero. -/
def initState : AnonState := ⟨[], [], 0⟩

/-- `type.toUpperCase().replace(/[^A-Z]/g, '_')`. -/
def sanitizeType (ty : JSString) : JSString :=
  ty.map (fun c =>
    let u := c.toUpper
    if 'A' ≤ u ∧ u ≤ 'Z' then u else '_')

/-- The token text `<LABEL_n>` built by `createToken`. -/
def mkToken (label : JSString) (n : Nat) : JSString :=
  ['<'] ++ label ++ ['_'] ++ natChars n ++ ['>']

/-- `createToken(original, type)`: reuse the stored token when the original
was seen before, otherwise mint `<TYPELABEL_counter+1>` and record it in
both maps. -/
def createToken (original ty : JSString) (σ : AnonState) : JSString × AnonState :=
  match alookup σ.reverseMap original with
  | some existing => (existing, σ)
  | none =>
    let n := σ.tokenCounter + 1
    let token := mkToken (sanitizeType ty) n
    (token,
     { tokenMap := σ.tokenMap ++ [(token, ⟨original, ty, token⟩)],
       reverseMap := σ.reverseMap ++ [(original, token)],
       tokenCounter := n })

/-- Run a list of tokenization requests `(original, type)` in order. -/
def runTokens (reqs : List (JSString × JSString)) (σ : AnonState) : AnonState :=
  reqs.foldl (fun st r => (createToken r.1 r.2 st).2) σ

/-- Anonymizer states arising in one session (a sequence of `createToken`
calls starting from the reset state). -/
def Reachable (σ : AnonState) : Prop := ∃ reqs, σ = runTokens reqs initState

/-- `deanonymize(text)`: replace every recorded token by its original, one
global literal replacement per `tokenMap` entry in insertion order (the
source escapes the token before building the regex, so the replacement is
literal). -/
def deanonymize (σ : AnonState) (text : JSString) : JSString :=
  σ.tokenMap.foldl (fun acc p => replaceAll p.1 p.2.original acc) text

/-! ### The category regexes of `patterns`, as positional matchers

A matcher receives the whole string and a start position and returns the
length of the (backtracking, greedy) match there, if any — the semantics a
JS global regex uses when scanning for its leftmost match.  `\b` is the
usual word/non-word boundary test. -/

/-- Character at a position, if in range. -/
def charAt (s : JSString) (i : Nat) : Option Char := s[i]?

/-- Is the character at `i` a word character (out of range counts as no)? -/
def wordAt (s : JSString) (i : Nat) : Bool :=
  match charAt s i with
  | some c => isWordChar c
  | none => false

/-- JS `\b` at position `i` of `s`. -/
def boundaryAt (s : JSString) (i : Nat) : Bool :=
  (wordAt s (i - 1) != wordAt s i) || (i = 0 && wordAt s 0)

/-- Match exactly `n` characters of class `p` starting at `i`;
returns the end position. -/
def matchCount (p : Char → Bool) (n : Nat) (s : JSString) (i : Nat) : Option Nat :=
  if ((s.drop i).take n).length = n ∧ ((s.drop i).take n).all p then some (i + n) else none

/-- Length of the maximal run of class `p` starting at `i`. -/
def runLen (p : Char → Bool) (s : JSString) (i : Nat) : Nat :=
  ((s.drop i).takeWhile p).length

/-- Greedy `p{mn,mx}` with backtracking: try the largest repetition first
and hand each candidate end position to the continuation `k`. -/
def greedyRep (p : Char → Bool) (mn mx : Nat) (s : JSString) (i : Nat)
    (k : Nat → Option Nat) : Option Nat :=
  let top := min (runLen p s i) mx
  if top < mn then none
  else (List.range (top - mn + 1)).findSome? (fun d => k (i + (top - d)))

/-- Greedy `p?` for a single-character class: try consuming, then not. -/
def optC (p : Char → Bool) (s : JSString) (i : Nat) (k : Nat → Option Nat) : Option Nat :=
  match charAt s i with
  | some c => if p c then (k (i + 1)).orElse (fun _ => k i) else k i
  | none => k i

/-- Match one literal character. -/
def litC (c : Char) (s : JSString) (i : Nat) (k : Nat → Option Nat) : Option Nat :=
  if charAt s i = some c then k (i + 1) else none

/-- Match one character of a class. -/
def clsC (p : Char → Bool) (s : JSString) (i : Nat) (k : Nat → Option Nat) : Option Nat :=
  match charAt s i with
  | some c => if p c then k (i + 1) else none
  | none => none

/-- Separator class `[-\s]` used inside the number patterns. -/
def isSepChar (c : Char) : Bool := c = '-' || isSpaceJS c

/-- Word boundary as a parser step. -/
def bndC (s : JSString) (i : Nat) (k : Nat → Option Nat) : Option Nat :=
  if boundaryAt s i then k i else none

/-- A matcher: start position to match length. -/
abbrev Matcher := JSString → Nat → Option Nat

/-- Close a parse: the end position `j` becomes the match length `j - i`. -/
def closeAt (i : Nat) : Nat → Option Nat := fun j => some (j - i)

/-- `sin`: `\b\d{3}[-\s]?\d{3}[-\s]?\d{3}\b`. -/
def sinM : Matcher := fun s i =>
  bndC s i (fun _ =>
    (matchCount Char.isDigit 3 s i).bind (fun a =>
      optC isSepChar s a (fun b =>
        (matchCount Char.isDigit 3 s b).bind (fun c =>
          optC isSepChar s c (fun d =>
            (matchCount Char.isDigit 3 s d).bind (fun e =>
              bndC s e (closeAt i)))))))

/-- `passport`: `\b[A-Z]{2}\d{6}\b`. -/
def passportM : Matcher := fun s i =>
  bndC s i (fun _ =>
    (matchCount (fun c => 'A' ≤ c ∧ c ≤ 'Z') 2 s i).bind (fun a =>
      (matchCount Char.isDigit 6 s a).bind (fun b =>
        bndC s b (closeAt i))))

/-- Local-part class of the e-mail regex: `[A-Za-z0-9._%+-]`. -/
def isEmailLocal (c : Char) : Bool :=
  c.isAlphanum || c = '.' || c = '_' || c = '%' || c = '+' || c = '-'

/-- Domain class of the e-mail regex: `[A-Za-z0-9.-]`. -/
def isEmailDomain (c : Char) : Bool := c.isAlphanum || c = '.' || c = '-'

/-- Top-level-domain class of the e-mail regex: `[A-Z|a-z]`
(the source class literally contains the bar). -/
def isEmailTld (c : Char) : Bool := c.isAlpha || c = '|'

/-- `email`: `\b[A-Za-z0-9._%+-]+@[A-Za-z0-9.-]+\.[A-Z|a-z]{2,}\b`. -/
def emailM : Matcher := fun s i =>
  bndC s i (fun _ =>
    greedyRep isEmailLocal 1 s.length s i (fun a =>
      litC '@' s a (fun b =>
        greedyRep isEmailDomain 1 s.length s b (fun c =>
          litC '.' s c (fun d =>
            greedyRep isEmailTld 2 s.length s d (fun e =>
              bndC s e (closeAt i)))))))

/-- The optional `\+1[-\s]?` prefix group of the phone regex. -/
def phonePrefix (s : JSString) (i : Nat) (k : Nat → Option Nat) : Option Nat :=
  (litC '+' s i (fun a =>
    litC '1' s a (fun b =>
      optC isSepChar s b k))).orElse (fun _ => k i)

/-- `phone`: `\b(\+1[-\s]?)?\(?\d{3}\)?[-\s]?\d{3}[-\s]?\d{4}\b`. -/
def phoneM : Matcher := fun s i =>
  bndC s i (fun _ =>
    phonePrefix s i (fun a =>
      optC (fun c => c = '(') s a (fun b =>
        (matchCount Char.isDigit 3 s b).bind (fun c =>
          optC (fun ch => ch = ')') s c (fun d =>
            optC isSepChar s d (fun e =>
              (matchCount Char.isDigit 3 s e).bind (fun f =>
                optC isSepChar s f (fun g =>
                  (matchCount Char.isDigit 4 s g).bind (fun h =>
                    bndC s h (closeAt i))))))))))

/-- Case-insensitive letter test used by the `/i` patterns. -/
def ciIs (target : Char) (c : Char) : Bool := c.toLower = target

/-- `postalCode`: `\b[A-Z]\d[A-Z][-\s]?\d[A-Z]\d\b` with the `i` flag. -/
def postalCodeM : Matcher := fun s i =>
  bndC s i (fun _ =>
    clsC Char.isAlpha s i (fun a =>
      clsC Char.isDigit s a (fun b =>
        clsC Char.isAlpha s b (fun c =>
          optC isSepChar s c (fun d =>
            clsC Char.isDigit s d (fun e =>
              clsC Char.isAlpha s e (fun f =>
                clsC Char.isDigit s f (fun g =>
                  bndC s g (closeAt i)))))))))

/-- `creditCard`: `\b\d{4}[-\s]?\d{4}[-\s]?\d{4}[-\s]?\d{4}\b`. -/
def creditCardM : Matcher := fun s i =>
  bndC s i (fun _ =>
    (matchCount Char.isDigit 4 s i).bind (fun a =>
      optC isSepChar s a (fun b =>
        (matchCount Char.isDigit 4 s b).bind (fun c =>
          optC isSepChar s c (fun d =>
            (matchCount Char.isDigit 4 s d).bind (fun e =>
              optC isSepChar s e (fun f =>
                (matchCount Char.isDigit 4 s f).bind (fun g =>
                  bndC s g (closeAt i)))))))))

/-- Date separator class (dash or slash). -/
def isDateSep (c : Char) : Bool := c = '-' || c = '/'

/-- `date`: four digits, separator, two digits, separator, two digits —
or two, two, four — with boundaries on both ends; ordered alternation. -/
def dateM : Matcher := fun s i =>
  (bndC s i (fun _ =>
    (matchCount Char.isDigit 4 s i).bind (fun a =>
      clsC isDateSep s a (fun b =>
        (matchCount Char.isDigit 2 s b).bind (fun c =>
          clsC isDateSep s c (fun d =>
            (matchCount Char.isDigit 2 s d).bind (fun e =>
              bndC s e (closeAt i)))))))).orElse (fun _ =>
  bndC s i (fun _ =>
    (matchCount Char.isDigit 2 s i).bind (fun a =>
      clsC isDateSep s a (fun b =>
        (matchCount Char.isDigit 2 s b).bind (fun c =>
          clsC isDateSep s c (fun d =>
            (matchCount Char.isDigit 4 s d).bind (fun e =>
              bndC s e (closeAt i))))))))

/-- `uci`: `\bUCI[-\s]?\d{8,10}\b` with the `i` flag. -/
def uciM : Matcher := fun s i =>
  bndC s i (fun _ =>
    clsC (ciIs 'u') s i (fun a =>
      clsC (ciIs 'c') s a (fun b =>
        clsC (ciIs 'i') s b (fun c =>
          optC isSepChar s c (fun d =>
            greedyRep Char.isDigit 8 10 s d (fun e =>
              bndC s e (closeAt i)))))))

/-- `bankAccount`: `\b\d{5,12}\b` — defined in the pattern set but skipped
by `anonymizeString`. -/
def bankAccountM : Matcher := fun s i =>
  bndC s i (fun _ =>
    greedyRep Char.isDigit 5 12 s i (fun a =>
      bndC s a (closeAt i)))

/-- `ip`: `\b\d{1,3}\.\d{1,3}\.\d{1,3}\.\d{1,3}\b`. -/
def ipM : Matcher := fun s i =>
  bndC s i (fun _ =>
    greedyRep Char.isDigit 1 3 s i (fun a =>
      litC '.' s a (fun b =>
        greedyRep Char.isDigit 1 3 s b (fun c =>
          litC '.' s c (fun d =>
            greedyRep Char.isDigit 1 3 s d (fun e =>
              litC '.' s e (fun f =>
                greedyRep Char.isDigit 1 3 s f (fun g =>
                  bndC s g (closeAt i)))))))))

/-- The `patterns` object in insertion order
(`Object.entries` iterates string keys in that order). -/
def patternsList : List (JSString × Matcher) :=
  [(js "sin", sinM), (js "passport", passportM), (js "email", emailM),
   (js "phone", phoneM), (js "postalCode", postalCodeM),
   (js "creditCard", creditCardM), (js "date", dateM), (js "uci", uciM),
   (js "bankAccount", bankAccountM), (js "ip", ipM)]

/-- Global stateful replacement for one pattern: scan left to right, replace
each match by a token from `createToken(match, type)`, resume after the
match (JS `lastIndex` semantics). -/
def replaceGo (m : Matcher) (ty : JSString) (s : JSString) :
    Nat → AnonState → JSString × AnonState
  | i, σ =>
    if hle : s.length ≤ i then ([], σ)
    else
      match m s i with
      | some len =>
        if hz : len = 0 then
          match charAt s i with
          | some c =>
            let (rest, σ1) := replaceGo m ty s (i + 1) σ
            (c :: rest, σ1)
          | none => ([], σ)
        else
          let piece := (s.drop i).take len
          let (tok, σ1) := createToken piece ty σ
          let (rest, σ2) := replaceGo m ty s (i + len) σ1
          (tok ++ rest, σ2)
      | none =>
        match charAt s i with
        | some c =>
          let (rest, σ1) := replaceGo m ty s (i + 1) σ
          (c :: rest, σ1)
        | none => ([], σ)
termination_by i _ => s.length - i
decreasing_by
  all_goals omega

/-- `text.replace(pattern, m => this.createToken(m, type))` for one category. -/
def replacePattern (m : Matcher) (ty : JSString) (text : JSString)
    (σ : AnonState) : JSString × AnonState :=
  replaceGo m ty text 0 σ

/-- The literal name indicators of `anonymizeProperNouns`
(the regex sources `M\\.` etc. denote the literal strings below). -/
def nameIndicators : List JSString :=
  [js "Nom complet :", js "Nom :", js "Name:", js "Demandeur :",
   js "Applicant:", js "M.", js "Mme.", js "Mr.", js "Mrs.", js "Ms."]

/-- Lower-case letter class of the name regex:
`[a-zéèêëàâäùûüôöîïç]`. -/
def isNameLower (c : Char) : Bool :=
  ('a' ≤ c && c ≤ 'z') || c = 'é' || c = 'è' || c = 'ê' || c = 'ë' ||
  c = 'à' || c = 'â' || c = 'ä' || c = 'ù' || c = 'û' || c = 'ü' ||
  c = 'ô' || c = 'ö' || c = 'î' || c = 'ï' || c = 'ç'

/-- One capitalized word `[A-Z][a-zé…]+`: returns the end position. -/
def capWordAt (s : JSString) (i : Nat) : Option Nat :=
  match charAt s i with
  | some c =>
    if 'A' ≤ c ∧ c ≤ 'Z' then
      let r := runLen isNameLower s (i + 1)
      if r = 0 then none else some (i + 1 + r)
    else none
  | none => none

/-- Greedy `(\s+[A-Z][a-zé…]+)*` tail after the first capitalized word;
nothing follows the star in the regex, so plain greedy repetition is the
exact semantics.  Returns the end position. -/
def capTail (s : JSString) (i : Nat) : Nat :=
  if hs : runLen isSpaceJS s i = 0 then i
  else
    match capWordAt s (i + runLen isSpaceJS s i) with
    | some j => if hlt : i < j then capTail s j else i
    | none => i
termination_by s.length + 1 - i
decreasing_by
  have hi : i < s.length := by
    have h1 : 0 < (s.drop i).length := by
      by_contra hc
      have : s.drop i = [] := by
        cases h : s.drop i with
        | nil => rfl
        | cons a l => rw [h] at hc; simp at hc
      unfold runLen at hs
      rw [this] at hs
      simp at hs
    rw [List.length_drop] at h1
    omega
  omega

/-- The name part `([A-Z][a-zé…]+(?:\s+[A-Z][a-zé…]+)*)` at `i`:
match length, if any. -/
def namePartAt (s : JSString) (i : Nat) : Option Nat :=
  match capWordAt s i with
  | some j => some (capTail s j - i)
  | none => none

/-- Matcher for `(indicator\s*)(name)`: returns
(indicator+spaces length, name length). -/
def indicatorMatchAt (ind : JSString) (s : JSString) (i : Nat) :
    Option (Nat × Nat) :=
  if ind.isPrefixOf (s.drop i) then
    let sp := runLen isSpaceJS s (i + ind.length)
    match namePartAt s (i + ind.length + sp) with
    | some nl => some (ind.length + sp, nl)
    | none => none
  else none

/-- Global replacement pass for one name indicator: the matched name is
tokenized as `PERSON`, the indicator prefix is kept. -/
def properNounGo (ind : JSString) (s : JSString) :
    Nat → AnonState → JSString × AnonState
  | i, σ =>
    if hle : s.length ≤ i then ([], σ)
    else
      match indicatorMatchAt ind s i with
      | some (pl, nl) =>
        if hz : pl + nl = 0 then
          match charAt s i with
          | some c =>
            let (rest, σ1) := properNounGo ind s (i + 1) σ
            (c :: rest, σ1)
          | none => ([], σ)
        else
          let pre := (s.drop i).take pl
          let nm := (s.drop (i + pl)).take nl
          let (tok, σ1) := createToken nm (js "PERSON") σ
          let (rest, σ2) := properNounGo ind s (i + pl + nl) σ1
          (pre ++ tok ++ rest, σ2)
      | none =>
        match charAt s i with
        | some c =>
          let (rest, σ1) := properNounGo ind s (i + 1) σ
          (c :: rest, σ1)
        | none => ([], σ)
termination_by i _ => s.length - i
decreasing_by
  all_goals omega

/-- `anonymizeProperNouns(text)`: one replacement pass per indicator. -/
def anonymizeProperNouns (text : JSString) (σ : AnonState) :
    JSString × AnonState :=
  nameIndicators.foldl
    (fun acc ind => properNounGo ind acc.1 0 acc.2) (text, σ)

/-- `anonymizeString(text)`: apply every category pattern in order —
skipping `bankAccount` ("to avoid false positives") — then the
proper-noun heuristic. -/
def anonymizeString (text : JSString) (σ : AnonState) : JSString × AnonState :=
  let p := patternsList.foldl
    (fun acc pr =>
      if pr.1 = js "bankAccount" then acc
      else replacePattern pr.2 pr.1 acc.1 acc.2) (text, σ)
  anonymizeProperNouns p.1 p.2

/-! ## Page scanner change notification (`dom-scanner.ts`) -/

/-- A node delivered in `MutationRecord.addedNodes`:
its DOM `nodeType` and upper-case tag name. -/
structure DomNodeRec where
  nodeType : Nat
  tag : JSString
deriving DecidableEq, Repr

/-- A `MutationRecord`: its `type` string and added nodes. -/
structure MutationRec where
  mtype : JSString
  addedNodes : List DomNodeRec
deriving DecidableEq, Repr

/-- The coarse allow-list of `isRelevantMutation`. -/
def relevantTags : List JSString :=
  [js "INPUT", js "SELECT", js "TEXTAREA", js "FORM", js "TABLE"]

/-- `isRelevantMutation(mutation)`: a `childList` record qualifies when some
added element node carries an allow-listed tag; every `attributes` record
qualifies. -/
def isRelevantMutation (m : MutationRec) : Bool :=
  if m.mtype = js "childList" then
    m.addedNodes.any (fun n => n.nodeType = 1 && relevantTags.contains n.tag)
  else m.mtype = js "attributes"

/-- The `MutationObserver` callback body: for each record of the delivered
batch, `handleDOMChange` dispatches one `oli-dom-change` event when the
record is relevant.  The result lists the dispatched events (the records
they carry), in order. -/
def observerCallbackRun (ms : List MutationRec) : List MutationRec :=
  ms.foldl (fun acc m => if isRelevantMutation m then acc ++ [m] else acc) []

/-- Timestamps at which a `debounce(func, wait)` wrapper actually runs
`func`, given the (ascending) times of the wrapped calls: each call
schedules `func` at its time plus `wait` and cancels the pending timer of
the previous call. -/
def debounceFires (wait : Nat) : List Nat → List Nat
  | [] => []
  | [t] => [t + wait]
  | t1 :: t2 :: ts =>
    if t2 ≤ t1 + wait then debounceFires wait (t2 :: ts)
    else (t1 + wait) :: debounceFires wait (t2 :: ts)

/-- Do all consecutive gaps of the call-time list stay within one debounce
window (`t` is the first call time)? -/
def gapsWithin (wait : Nat) : Nat → List Nat → Bool
  | _, [] => true
  | t, t2 :: ts => t2 ≤ t + wait && gapsWithin wait t2 ts

/-! ## Content script (`content.js`) -/

/-- The three status colour records of `STATUS_COLORS`. -/
structure StatusColors where
  border : JSString
  bg : JSString
  textColor : JSString
  icon : JSString
deriving DecidableEq, Repr

/-- `STATUS_COLORS.CRITIQUE`. -/
def critiqueColors : StatusColors :=
  ⟨js "#EF4444", js "rgba(239, 68, 68, 0.1)", js "#DC2626", js "(red)"⟩

/-- `STATUS_COLORS.AVERTISSEMENT`. -/
def avertissementColors : StatusColors :=
  ⟨js "#F59E0B", js "rgba(245, 158, 11, 0.1)", js "#D97706", js "(yellow)"⟩

/-- `STATUS_COLORS.CONFORME`. -/
def conformeColors : StatusColors :=
  ⟨js "#10B981", js "rgba(16, 185, 129, 0.1)", js "#059669", js "(green)"⟩

/-- `STATUS_COLORS[status] || STATUS_COLORS.CRITIQUE`. -/
def colorsOf (status : JSString) : StatusColors :=
  if status = js "CRITIQUE" then critiqueColors
  else if status = js "AVERTISSEMENT" then avertissementColors
  else if status = js "CONFORME" then conformeColors
  else critiqueColors

/-- Badge glyph: `'!'` for CRITIQUE, `'?'` for AVERTISSEMENT, check mark
otherwise. -/
def badgeTextOf (status : JSString) : JSString :=
  if status = js "CRITIQUE" then js "!"
  else if status = js "AVERTISSEMENT" then js "?"
  else js "(check)"

/-- `message || 'Element flagged by OLI'` (empty strings are falsy). -/
def defaultMsg (m : JSString) : JSString :=
  if m = [] then js "Element flagged by OLI" else m

/-- An element of the foreign tree, carrying exactly the state the content
script reads or writes.  `posStatic` is the stylesheet-derived computed
position (the engine never re-reads it after adding its own inline style
within one decoration, so it is kept as a base fact of the element);
`valueSel` records whether the element matches the value-element selector
`.value, .form-control, td:last-child, [class*="value"]`, and `inField`
whether it sits inside a `.field, .form-group, tr, [class*="row"],
[class*="field"]` container as the value element that container query
returns (the engine never adds classes containing `value`, `row` or
`field`, so these selector facts stay constant). -/
structure El where
  tag : JSString
  itype : JSString
  idAttr : JSString
  nameAttr : JSString
  value : JSString
  textContent : JSString
  labelText : JSString
  styleAttr : Option JSString
  classes : List JSString
  dataAttrs : List (JSString × JSString)
  listeners : List JSString
  badgeKids : Nat
  posStatic : Bool
  valueSel : Bool
  inField : Bool
deriving DecidableEq, Repr

/-- An engine-created wrapper span replacing one text node.  Its contents
(the split text, the `mark`, the inline badge) are engine-owned and
modelled atomically: `original` is `dataset.oliOriginal`, `variant` the
matched search variant, `focusCls` whether the span currently carries
`oli-focus-highlight`, `hasBadge` whether its inline badge is attached. -/
structure WrapSpan where
  original : JSString
  status : JSString
  message : JSString
  variant : JSString
  focusCls : Bool
  hasBadge : Bool
deriving DecidableEq, Repr

/-- One position of the body text-node sequence: still a raw text node, or
wrapped by the engine. -/
inductive Slot where
  | textNode (s : JSString)
  | wrapped (w : WrapSpan)
deriving DecidableEq, Repr

/-- A fixed-position badge appended to `document.body` for a void element;
`forId` is its `data-for` value. -/
structure BodyBadge where
  forId : JSString
  btext : JSString
deriving DecidableEq, Repr

/-- The observable state of the foreign document: elements in document
order, body text nodes in document order, engine body badges, the floating
indicator, the number of window scroll/resize listener registrations, and
whether the two injected style elements exist. -/
structure Doc where
  elems : List El
  slots : List Slot
  bodyBadges : List BodyBadge
  indicator : Option JSString
  winListeners : Nat
  animStyles : Bool
  focusStyles : Bool
deriving DecidableEq, Repr

/-- A registry entry of `highlightedElements`: a live reference to an
element or to a wrapper span (identified by position). -/
inductive Ref where
  | elemRef (i : Nat)
  | slotRef (i : Nat)
deriving DecidableEq, Repr

/-- Content-script state: the document plus the `highlightedElements`
registry. -/
structure CState where
  doc : Doc
  registry : List Ref
deriving DecidableEq, Repr

/-- Dataset keys used by the engine (JS property names of `dataset`). -/
def kOliOriginal : JSString := js "oliOriginal"
/-- Dataset key `oliStatus`. -/
def kOliStatus : JSString := js "oliStatus"
/-- Dataset key `oliMessage`. -/
def kOliMessage : JSString := js "oliMessage"
/-- Dataset key `oliOriginalStyle`. -/
def kOliOriginalStyle : JSString := js "oliOriginalStyle"
/-- Dataset key `oliBadgeCreated`. -/
def kOliBadgeCreated : JSString := js "oliBadgeCreated"
/-- Dataset key `oliMouseEnter`. -/
def kOliMouseEnter : JSString := js "oliMouseEnter"
/-- Dataset key `oliMouseLeave`. -/
def kOliMouseLeave : JSString := js "oliMouseLeave"
/-- Dataset key `badgeScrollHandler`. -/
def kBadgeScrollHandler : JSString := js "badgeScrollHandler"

/-- All engine dataset keys. -/
def engineDataKeys : List JSString :=
  [kOliOriginal, kOliStatus, kOliMessage, kOliOriginalStyle,
   kOliBadgeCreated, kOliMouseEnter, kOliMouseLeave, kBadgeScrollHandler]

/-- `dataset.k = v`: replace in place when present, else append
(HTML attribute order). -/
def setData (m : List (JSString × JSString)) (k v : JSString) :
    List (JSString × JSString) :=
  if m.any (fun p => p.1 = k) then m.map (fun p => if p.1 = k then (k, v) else p)
  else m ++ [(k, v)]

/-- `delete dataset.k`. -/
def delData (m : List (JSString × JSString)) (k : JSString) :
    List (JSString × JSString) :=
  m.filter (fun p => p.1 ≠ k)

/-- `dataset.k`, `undefined` when absent. -/
def getData (m : List (JSString × JSString)) (k : JSString) : Option JSString :=
  alookup m k

/-- `classList.add`: append the token when absent. -/
def addCls (cs : List JSString) (c : JSString) : List JSString :=
  if cs.contains c then cs else cs ++ [c]

/-- `classList.remove`: drop the token. -/
def removeCls (cs : List JSString) (c : JSString) : List JSString :=
  cs.filter (fun x => x ≠ c)

/-- The serialized `class` attribute (tokens joined by spaces), for the
`[class*="…"]` substring selectors. -/
def classAttrText (cs : List JSString) : JSString :=
  List.intercalate (js " ") cs

/-- Does the element match `[class*="pat"]`? -/
def classAttrContains (e : El) (pat : JSString) : Bool :=
  containsSub (classAttrText e.classes) pat

/-- First match of the money regex (a nonempty run of digits and
whitespace directly followed by a dollar sign; the trailing `\s*` of the
source pattern is absorbed by the greedy run), leftmost-first. -/
def moneyMatch (s : JSString) : Option JSString :=
  (List.range s.length).findSome? (fun i =>
    let run := (s.drop i).takeWhile (fun c => c.isDigit || isSpaceJS c)
    if run ≠ [] ∧ (s.drop i)[run.length]? = some '$' then
      some (run ++ ['$'])
    else none)

/-- Are the `n` characters starting at `i` all digits (and present)? -/
def digitsAt (s : JSString) (i n : Nat) : Bool :=
  ((s.drop i).take n).length = n && ((s.drop i).take n).all Char.isDigit

/-- First match of the plain date regex (four digits, dash, two digits,
dash, two digits — no boundary assertions in this one), leftmost-first. -/
def dateKeyMatch (s : JSString) : Option JSString :=
  (List.range s.length).findSome? (fun i =>
    if digitsAt s i 4 ∧ s[i + 4]? = some '-' ∧ digitsAt s (i + 5) 2 ∧
        s[i + 7]? = some '-' ∧ digitsAt s (i + 8) 2 then
      some ((s.drop i).take 10)
    else none)

/-- Split a string at every colon. -/
def splitColons : JSString → List JSString
  | [] => [[]]
  | c :: rest =>
    if c = ':' then [] :: splitColons rest
    else
      match splitColons rest with
      | [] => [[c]]
      | p :: ps => (c :: p) :: ps

/-- `extractKeyValue(text)`: the trimmed money match, else the date match,
else the trimmed part after the last colon, else the text itself. -/
def extractKeyValue (text : JSString) : JSString :=
  match moneyMatch text with
  | some m => trimJS m
  | none =>
    match dateKeyMatch text with
    | some d => d
    | none =>
      if text.contains ':' then
        trimJS ((splitColons text).getLastD [])
      else text

/-- The label captured from a fragment of shape `Field [Label]:` — the
lazy group stops at the first following `]:`; a match with an empty group
is falsy and yields no label.  The captured label is trimmed. -/
def extractTargetLabel (searchText : JSString) : Option JSString :=
  match
    (List.range searchText.length).findSome? (fun i =>
      if (js "Field [").isPrefixOf (searchText.drop i) then
        (List.range (searchText.drop (i + 7)).length).findSome? (fun k =>
          if (js "]:").isPrefixOf ((searchText.drop (i + 7)).drop k) then
            some ((searchText.drop (i + 7)).take k)
          else none)
      else none)
  with
  | some g => if g = [] then none else some (trimJS g)
  | none => none

/-- Is the element one of the `input, select, textarea` query results? -/
def isFormFieldTag (e : El) : Bool :=
  e.tag = js "INPUT" || e.tag = js "SELECT" || e.tag = js "TEXTAREA"

/-- The `continue`-skipped utility input types of `findBestMatchElement`. -/
def skippedInputType (e : El) : Bool :=
  e.itype = js "hidden" || e.itype = js "submit" ||
  e.itype = js "button" || e.itype = js "image"

/-- Containment in either direction (`a.includes(b) || b.includes(a)`). -/
def inclEither (a b : JSString) : Bool := containsSub a b || containsSub b a

/-- The `matchScore` computed for one candidate input: `+10` for a
normalized-value containment either way, and with a target label `+3` for
a name/id partial match and `+5` for an associated-label partial match.
`labelText` models the label the three DOM lookups of the source find
(empty when none). -/
def inputMatchScore (targetLabel : Option JSString) (nkv : JSString) (e : El) : Nat :=
  let normV := normWs e.value
  let s0 : Nat :=
    if normV ≠ [] ∧ (containsSub normV nkv || containsSub nkv normV || normV = nkv) then 10
    else 0
  match targetLabel with
  | none => s0
  | some tl =>
    let nl := lowerStr e.nameAttr
    let il := lowerStr e.idAttr
    let ll := lowerStr tl
    let s1 := s0 + (if inclEither nl ll || inclEither il ll then 3 else 0)
    s1 + (if e.labelText ≠ [] ∧ inclEither (lowerStr e.labelText) ll then 5 else 0)

/-- The `bestInput`/`bestInputScore` loop over the `input, select,
textarea` elements, keeping the first strict maximum; `i` is the index of
the head of `es` in the document's element list. -/
def bestInputGo (tl : Option JSString) (nkv : JSString) :
    Nat → List El → (Option Nat × Nat) → (Option Nat × Nat)
  | _, [], b => b
  | i, e :: es, b =>
    bestInputGo tl nkv (i + 1) es
      (if isFormFieldTag e && ¬ skippedInputType e then
        (if b.2 < inputMatchScore tl nkv e then (some i, inputMatchScore tl nkv e) else b)
       else b)

/-- A locator result: element index and the `type` tag of the returned
record (`input`, `value`, `highlighted`, `table`, `amount`). -/
structure MatchResult where
  index : Nat
  mtype : JSString
deriving DecidableEq, Repr

/-- Indexed search for the first element satisfying `p`. -/
def findElemIdx (p : El → Bool) : Nat → List El → Option Nat
  | _, [] => none
  | i, e :: es => if p e then some i else findElemIdx p (i + 1) es

/-- `findBestMatchElement(searchText, keyValue)`: priority 0 inputs
(score at least 3), then field value elements, highlighted-class elements,
table cells, amount elements — each by document order, first containment
hit wins; `null` when nothing matches. -/
def findBestMatchElement (d : Doc) (searchText keyValue : JSString) :
    Option MatchResult :=
  let tl := extractTargetLabel searchText
  let nkv := normWs keyValue
  let best := bestInputGo tl nkv 0 d.elems (none, 0)
  if 3 ≤ best.2 then
    match best.1 with
    | some i => some ⟨i, js "input"⟩
    | none => none
  else
    match findElemIdx (fun e => e.inField && e.valueSel &&
        containsSub e.textContent keyValue) 0 d.elems with
    | some i => some ⟨i, js "value"⟩
    | none =>
      match findElemIdx (fun e => classAttrContains e (js "highlight") &&
          containsSub e.textContent keyValue) 0 d.elems with
      | some i => some ⟨i, js "highlighted"⟩
      | none =>
        match findElemIdx (fun e => (e.tag = js "TD" || e.tag = js "TH") &&
            containsSub e.textContent keyValue) 0 d.elems with
        | some i => some ⟨i, js "table"⟩
        | none =>
          match findElemIdx (fun e =>
              (classAttrContains e (js "amount") ||
               classAttrContains e (js "price") ||
               classAttrContains e (js "balance")) &&
              containsSub e.textContent keyValue) 0 d.elems with
          | some i => some ⟨i, js "amount"⟩
          | none => none

/-- The void-tag test of `highlightExistingElement` (elements that cannot
host child nodes). -/
def voidTags : List JSString :=
  [js "IMG", js "INPUT", js "BR", js "HR", js "AREA", js "BASE",
   js "BASEFONT", js "COL", js "LINK", js "META", js "PARAM",
   js "SELECT", js "TEXTAREA"]

/-- The inline CSS the decoration writes: the recorded original style
followed by the outline/background block (the browser keeps the original
declarations and appends the new ones). -/
def highlightStyleCss (orig : JSString) (c : StatusColors) : JSString :=
  orig ++ js " outline: 3px solid " ++ c.border ++
  js " !important; outline-offset: 2px !important; background: " ++ c.bg ++
  js " !important; border-radius: 4px !important; transition: all 0.2s ease;"

/-- `element.id || element.name` (empty strings are falsy). -/
def elIdOrName (e : El) : JSString :=
  if e.idAttr ≠ [] then e.idAttr else e.nameAttr

/-- The `scrollHandler.toString()` text stored in
`dataset.badgeScrollHandler`. -/
def handlerString : JSString := js "() => updateBadgePosition()"

/-- Set the `oli-focus-highlight` class on the referenced node and inject
the `oli-focus-styles` style element if absent — the tree effects of
`scrollToAndPulse` (scrolling, the transient tooltip and the delayed class
removal are timer work outside the synchronous model). -/
def scrollPulse (r : Ref) (s : CState) : CState :=
  let d := { s.doc with focusStyles := true }
  match r with
  | .elemRef i =>
    match d.elems[i]? with
    | some e =>
      let e' := { e with classes := addCls e.classes (js "oli-focus-highlight") }
      { s with doc := { d with elems := d.elems.set i e' } }
    | none => { s with doc := d }
  | .slotRef j =>
    match d.slots[j]? with
    | some (Slot.wrapped w) =>
      let sl' := Slot.wrapped { w with focusCls := true }
      { s with doc := { d with slots := d.slots.set j sl' } }
    | _ => { s with doc := d }

/-- The class/dataset/style mutations `highlightExistingElement` applies
before badge placement: add the highlight class, record the
status/message/original-style dataset entries, overwrite the inline style
with the recorded original plus the outline/background block. -/
def decorateBase (status message : JSString) (e : El) : El :=
  let e1 := { e with
    classes := addCls e.classes (js "oli-highlight"),
    dataAttrs := setData (setData e.dataAttrs kOliStatus status)
      kOliMessage (defaultMsg message) }
  let originalStyle := e1.styleAttr.getD []
  { e1 with
    dataAttrs := setData e1.dataAttrs kOliOriginalStyle originalStyle,
    styleAttr := some (highlightStyleCss originalStyle (colorsOf status)) }

/-- The badge-placement step of `highlightExistingElement`: a void element
gets a body-anchored badge plus two window listeners and the
`badgeScrollHandler`/`oliBadgeCreated` dataset entries, another element
gets an in-flow badge child (forcing `position: relative` on statically
positioned ones), and nothing happens when the badge already exists. -/
def badgeStep (status : JSString) (d : Doc) (e2 : El) : El × Doc :=
  let isVoid := voidTags.contains e2.tag
  let badgeExists :=
    if isVoid then d.bodyBadges.any (fun b => b.forId = elIdOrName e2)
    else 0 < e2.badgeKids
  if badgeExists then (e2, d)
  else if isVoid then
    ({ e2 with dataAttrs := setData (setData e2.dataAttrs kBadgeScrollHandler handlerString) kOliBadgeCreated (js "true") },
     { d with
       bodyBadges := d.bodyBadges ++ [⟨elIdOrName e2, badgeTextOf status⟩],
       winListeners := d.winListeners + 2 })
  else
    let e2' :=
      if e2.posStatic then
        { e2 with styleAttr := some ((e2.styleAttr.getD []) ++ js " position: relative;") }
      else e2
    ({ e2' with badgeKids := e2'.badgeKids + 1 }, d)

/-- The hover-listener attachment of `highlightExistingElement`
(`mouseenter`, `mouseleave`, recorded in the dataset). -/
def attachHover (e3 : El) : El :=
  { e3 with
    listeners := e3.listeners ++ [js "mouseenter", js "mouseleave"],
    dataAttrs := setData (setData e3.dataAttrs kOliMouseEnter (js "attached"))
      kOliMouseLeave (js "attached") }

/-- `highlightExistingElement(element, status, message, colors,
scrollAndPulse)` at element index `i`: apply the base decoration, run the
badge step, attach the hover listeners, push the element on the registry,
and pulse when asked. -/
def highlightExistingElement (i : Nat) (status message : JSString)
    (scrollAndPulse : Bool) (s : CState) : CState :=
  match s.doc.elems[i]? with
  | none => s
  | some e =>
    let p := badgeStep status s.doc (decorateBase status message e)
    let s2 : CState :=
      { doc := { p.2 with elems := p.2.elems.set i (attachHover p.1) },
        registry := s.registry ++ [Ref.elemRef i] }
    if scrollAndPulse then scrollPulse (Ref.elemRef i) s2 else s2

/-- Restore one registry element in `cleanupHighlights`: drop the engine
classes, re-apply the recorded original style (or remove the attribute
when no record exists), delete the six enumerated dataset keys —
`badgeScrollHandler` is not among them, and no listener is detached. -/
def restoreEl (e : El) : El :=
  let e1 := { e with
    classes := removeCls (removeCls e.classes (js "oli-highlight")) (js "oli-focus-highlight"),
    styleAttr :=
      match getData e.dataAttrs kOliOriginalStyle with
      | some v => some v
      | none => none }
  { e1 with dataAttrs :=
      delData (delData (delData (delData (delData (delData e1.dataAttrs
        kOliStatus) kOliMessage) kOliOriginalStyle) kOliBadgeCreated)
        kOliMouseEnter) kOliMouseLeave }

/-- Process one `highlightedElements` entry of `cleanupHighlights`: a
wrapper span (it has a parent and `dataset.oliOriginal`) is replaced by a
single text node holding the recorded original text; an element reference
goes through `restoreEl`. -/
def restoreRef (d : Doc) (r : Ref) : Doc :=
  match r with
  | .slotRef j =>
    match d.slots[j]? with
    | some (Slot.wrapped w) => { d with slots := d.slots.set j (Slot.textNode w.original) }
    | _ => d
  | .elemRef i =>
    match d.elems[i]? with
    | some e => { d with elems := d.elems.set i (restoreEl e) }
    | none => d

/-- Zero the badge-children count (effect of removing the `.oli-badge`
children of an element). -/
def zeroBadgeKids (e : El) : El := { e with badgeKids := 0 }

/-- The slot-level effect of a registry restore: a wrapper span becomes a
text node holding its recorded original text. -/
def restoreSlot : Slot → Slot
  | .wrapped w => .textNode w.original
  | s => s

/-- Badge removal inside a surviving wrapper span. -/
def clearWrapBadge : Slot → Slot
  | .wrapped w => .wrapped { w with hasBadge := false }
  | s => s

/-- `cleanupHighlights()`: restore every registry entry, then remove every
element of class `oli-badge` found by a whole-document query — the
engine-made badge children and body badges, but also any other element
carrying that class — and empty the registry. -/
def cleanupHighlights (s : CState) : CState :=
  let d1 := s.registry.foldl restoreRef s.doc
  { doc := { d1 with
      elems := ((d1.elems.filter (fun e => ¬ e.classes.contains (js "oli-badge"))).map zeroBadgeKids),
      slots := d1.slots.map clearWrapBadge,
      bodyBadges := [] },
    registry := [] }

/-- Clearing the focus class on an element, first step of
`findAndScrollToText` (clearing the `animation`, `outline` and
`box-shadow` style properties is a serialized no-op for elements whose
inline style never held them, which is the only way the engine grants the
class). -/
def defocusEl (e : El) : El :=
  { e with classes := removeCls e.classes (js "oli-focus-highlight") }

/-- Clearing the focus class on a wrapper span. -/
def defocusSlot : Slot → Slot
  | .wrapped w => .wrapped { w with focusCls := false }
  | s => s

/-- `el.value || el.textContent || ''` for an element. -/
def elValueOrText (e : El) : JSString :=
  if e.value ≠ [] then e.value else e.textContent

/-- Indexed search for the first wrapper span whose text contains the
search text or the key value. -/
def findWrapHit (searchText kv : JSString) : Nat → List Slot → Option Nat
  | _, [] => none
  | j, Slot.wrapped w :: rest =>
    if containsSub w.original searchText || containsSub w.original kv then some j
    else findWrapHit searchText kv (j + 1) rest
  | j, Slot.textNode _ :: rest => findWrapHit searchText kv (j + 1) rest

/-- The `.oli-highlight` re-use scan of `findAndScrollToText` (taken only
with `scrollAndPulse`): first decorated element, then first wrapper span,
whose value/text contains the search text or its key value.  Separate
element and text-node orders approximate one document order. -/
def findExistingHighlight (d : Doc) (searchText kv : JSString) : Option Ref :=
  match findElemIdx (fun e => e.classes.contains (js "oli-highlight") &&
      (containsSub (elValueOrText e) searchText || containsSub (elValueOrText e) kv))
      0 d.elems with
  | some i => some (Ref.elemRef i)
  | none =>
    match findWrapHit searchText kv 0 d.slots with
    | some j => some (Ref.slotRef j)
    | none => none

/-- The search variants of `findAndScrollToText`: the list of six
candidates, nonempty ones only, first-occurrence de-duplicated (a JS
`Set`). -/
def searchVariants (searchText kv : JSString) : List JSString :=
  dedupFirst
    (([searchText, kv, collapseWs (trimJS searchText), stripSpaces kv,
       nbspSpaces kv, normColons searchText]).filter (fun v => v ≠ []))

/-- The tree-walker scan: the first raw text node with actual content that
contains some variant (in variant order), together with that variant.
Text inside engine wrapper spans is modelled atomically and not
re-wrapped. -/
def findWrapTarget (variants : List JSString) : Nat → List Slot →
    Option (Nat × JSString × JSString)
  | _, [] => none
  | j, Slot.textNode t :: rest =>
    if trimJS t = [] then findWrapTarget variants (j + 1) rest
    else
      match variants.find? (fun v => containsSub t v) with
      | some v => some (j, t, v)
      | none => findWrapTarget variants (j + 1) rest
  | j, Slot.wrapped _ :: rest => findWrapTarget variants (j + 1) rest

/-- `findAndScrollToText(searchText, status, message, scrollAndPulse)`:
clear previous focus highlights; with `scrollAndPulse`, re-use an existing
highlight when one matches; otherwise locate via `findBestMatchElement`
and decorate in place; otherwise wrap the first text node containing a
search variant (the wrap branch always pulses); `false` when nothing
matched. -/
def findAndScrollToText (searchText status message : JSString)
    (scrollAndPulse : Bool) (s : CState) : Bool × CState :=
  let d0 := { s.doc with
    elems := s.doc.elems.map defocusEl,
    slots := s.doc.slots.map defocusSlot }
  let s0 : CState := { s with doc := d0 }
  let kv := extractKeyValue searchText
  match
    (if scrollAndPulse then findExistingHighlight d0 searchText kv else none)
  with
  | some r => (true, scrollPulse r s0)
  | none =>
    match findBestMatchElement d0 searchText kv with
    | some mr => (true, highlightExistingElement mr.index status message scrollAndPulse s0)
    | none =>
      match findWrapTarget (searchVariants searchText kv) 0 d0.slots with
      | some (j, t, v) =>
        let w : WrapSpan := ⟨t, status, defaultMsg message, v, true, true⟩
        let s1 : CState :=
          { doc := { d0 with slots := d0.slots.set j (Slot.wrapped w) },
            registry := s0.registry ++ [Ref.slotRef j] }
        (true, scrollPulse (Ref.slotRef j) s1)
      | none => (false, s0)

/-- One highlight datum of the `HIGHLIGHT_RISKS` message. -/
structure HL where
  text : JSString
  status : JSString
deriving DecidableEq, Repr

/-- `addFloatingIndicator(overallStatus)`: replace the indicator and make
sure the `oli-animations` style element exists. -/
def addFloatingIndicator (overall : JSString) (d : Doc) : Doc :=
  { d with indicator := some overall, animStyles := true }

/-- One iteration of the `HIGHLIGHT_RISKS` loop:
`findAndScrollToText(h.text, h.status, 'Risk element detected', false)`. -/
def applyStep (st : CState) (h : HL) : CState :=
  (findAndScrollToText h.text h.status (js "Risk element detected") false st).2

/-- The `HIGHLIGHT_RISKS` loop over all highlights. -/
def applySteps (hs : List HL) (s : CState) : CState := hs.foldl applyStep s

/-- The `HIGHLIGHT_RISKS` handler (`apply`): implicit
`cleanupHighlights()`, then one `findAndScrollToText(h.text, h.status,
'Risk element detected', false)` per highlight, then the floating
indicator. -/
def applyRisks (hs : List HL) (overall : JSString) (s : CState) : CState :=
  let s2 := applySteps hs (cleanupHighlights s)
  { s2 with doc := addFloatingIndicator overall s2.doc }

/-- The `CLEAR_HIGHLIGHTS` handler (`clear`): `cleanupHighlights()` plus
removal of the floating indicator. -/
def clearHighlightsMsg (s : CState) : CState :=
  let s1 := cleanupHighlights s
  { s1 with doc := { s1.doc with indicator := none } }

/-- The `SCROLL_TO_TEXT` handler body for a given (truthy) text: the
`success` flag and the new state. -/
def scrollToTextMsg (text status message : JSString) (s : CState) :
    Bool × CState :=
  findAndScrollToText text status message true s

/-- A compliance check as the panel consumes it (`status`,
`highlight_text`). -/
structure ComplianceCheck where
  status : JSString
  highlight_text : Option JSString
deriving DecidableEq, Repr

/-- Truthiness of `highlight_text` (`null` and the empty string are
falsy). -/
def truthyText : Option JSString → Bool
  | some t => t ≠ []
  | none => false

/-- The panel filter of `scanPage`: only checks with a truthy
`highlight_text` and a status other than CONFORME become highlights. -/
def highlightTextsOf (checks : List ComplianceCheck) : List HL :=
  (checks.filter (fun c => truthyText c.highlight_text && c.status ≠ js "CONFORME")).map
    (fun c => ⟨c.highlight_text.getD [], c.status⟩)

/-! ### Spec-side normalisation and cleanliness predicates -/

/-- Overwrite the floating-indicator slot of a state, leaving everything
else untouched (the common effect both handlers have on the indicator). -/
def setIndic (v : Option JSString) (x : CState) : CState :=
  { x with doc := { x.doc with indicator := v } }

/-- The focus-clearing pass at the top of `findAndScrollToText`, as a
whole-state operation. -/
def defocusState (x : CState) : CState :=
  ⟨{ x.doc with elems := x.doc.elems.map defocusEl, slots := x.doc.slots.map defocusSlot },
    x.registry⟩

/-- Erase the residues `clear()` is known to leave on an element: attached
listeners, the `badgeScrollHandler` dataset entry, and the difference
between an absent and an empty `style` attribute. -/
def scrubEl (e : El) : El :=
  { e with
    styleAttr := if e.styleAttr = some [] then none else e.styleAttr,
    dataAttrs := delData e.dataAttrs kBadgeScrollHandler,
    listeners := [] }

/-- Erase the document-level residues: window listeners and the two
injected style elements, plus the per-element residues. -/
def scrubDoc (d : Doc) : Doc :=
  { d with
    elems := d.elems.map scrubEl,
    winListeners := 0,
    animStyles := false,
    focusStyles := false }

/-- An element untouched by the engine: none of the engine classes, no
engine dataset keys, no badge children. -/
def CleanEl (e : El) : Prop :=
  ¬ e.classes.contains (js "oli-highlight") ∧
  ¬ e.classes.contains (js "oli-focus-highlight") ∧
  ¬ e.classes.contains (js "oli-badge") ∧
  (∀ k ∈ engineDataKeys, getData e.dataAttrs k = none) ∧
  e.badgeKids = 0

/-- A document with no engine artifacts: clean elements, raw text nodes
only, no body badges, no indicator. -/
def CleanDoc (d : Doc) : Prop :=
  (∀ e ∈ d.elems, CleanEl e) ∧
  (∀ sl ∈ d.slots, ∃ t, sl = Slot.textNode t) ∧
  d.bodyBadges = [] ∧ d.indicator = none

instance : DecidablePred CleanEl := fun e => by
  unfold CleanEl; infer_instance

instance : DecidablePred CleanDoc := fun d => by
  unfold CleanDoc
  have : ∀ sl : Slot, Decidable (∃ t, sl = Slot.textNode t) := fun sl =>
    match sl with
    | Slot.textNode t => isTrue ⟨t, rfl⟩
    | Slot.wrapped w => isFalse (by rintro ⟨t, h⟩; cases h)
  infer_instance

/-- The counter encoded at the tail of a token `<LABEL_n>`: the maximal
digit run before the closing bracket. -/
def tokenNum (t : JSString) : Nat :=
  charsToNat (((t.reverse.drop 1).takeWhile Char.isDigit).reverse)

/-- The session invariant of the anonymizer maps: every recorded token was
minted as `<LABEL_k>` with a positive counter at most the current one, and
distinct originals hold distinct tokens. -/
def SessionInv (σ : AnonState) : Prop :=
  (∀ p ∈ σ.reverseMap, ∃ l k, p.2 = mkToken l k ∧ 1 ≤ k ∧ k ≤ σ.tokenCounter) ∧
  (∀ p ∈ σ.reverseMap, ∀ q ∈ σ.reverseMap, p.1 ≠ q.1 → p.2 ≠ q.2)

/-- Decoration/restoration compatibility of a current element `e` with its
pre-decoration form `e0`: undoing `e` (registry restore, badge-children
removal) agrees with `e0` up to the known residues, and `e` never carries
the badge or focus class. -/
def ElSim (e0 e : El) : Prop :=
  scrubEl (zeroBadgeKids (restoreEl e)) = scrubEl (zeroBadgeKids e0) ∧
  ¬ e.classes.contains (js "oli-badge") ∧
  ¬ e.classes.contains (js "oli-focus-highlight")

/-- Simulation invariant between the pre-`apply` document `d` and the
engine state `s` during the `HIGHLIGHT_RISKS` loop: unregistered nodes are
untouched, registered elements are restorable decorations of their
original, registered slots are wrappers recording the original text. -/
def Sim (d : Doc) (s : CState) : Prop :=
  s.doc.elems.length = d.elems.length ∧
  s.doc.slots.length = d.slots.length ∧
  (∀ i, Ref.elemRef i ∉ s.registry → s.doc.elems[i]? = d.elems[i]?) ∧
  (∀ j, Ref.slotRef j ∉ s.registry → s.doc.slots[j]? = d.slots[j]?) ∧
  (∀ i, Ref.elemRef i ∈ s.registry →
    ∃ e0 e, d.elems[i]? = some e0 ∧ s.doc.elems[i]? = some e ∧
      CleanEl e0 ∧ ElSim e0 e) ∧
  (∀ j, Ref.slotRef j ∈ s.registry →
    ∃ t w, d.slots[j]? = some (Slot.textNode t) ∧
      s.doc.slots[j]? = some (Slot.wrapped w) ∧ w.original = t)

/-! ### Concrete states used by the witnesses and counterexamples -/

/-- A bare text input with live value `5000` and no inline style. -/
def balanceInput : El :=
  ⟨js "INPUT", js "text", js "balance", js "balance", js "5000", [],
   js "Solde", none, [], [], [], 0, true, false, false⟩

/-- A funds input with live value `20635`. -/
def fundsInput : El :=
  ⟨js "INPUT", js "text", js "funds", js "funds", js "20635", [],
   js "Funds", none, [], [], [], 0, true, false, false⟩

/-- A table cell whose text also contains `20635` (a tier-3 coincidence). -/
def coincidenceCell : El :=
  ⟨js "TD", [], [], [], [], js "ref 20635 in archive", [],
   none, [], [], [], 0, true, false, false⟩

/-- A clean single-input document with one text node. -/
def sampleDoc : Doc :=
  ⟨[balanceInput], [Slot.textNode (js "Revenu : 5 000 $")], [], none, 0,
   false, false⟩

/-- The engine state over `sampleDoc` before any apply. -/
def sampleState : CState := ⟨sampleDoc, []⟩

/-- One critical finding anchored at the `5000` value. -/
def sampleFindings : List HL := [⟨js "5000", js "CRITIQUE"⟩]

/-- A document pairing the funds field with a textual coincidence. -/
def tierDoc : Doc :=
  ⟨[coincidenceCell, fundsInput], [Slot.textNode (js "total 20635 records")],
   [], none, 0, false, false⟩

/-- A foreign element that carries the `oli-badge` class without having
been created by the engine. -/
def foreignBadgeEl : El :=
  { balanceInput with idAttr := js "decoy", nameAttr := js "decoy", classes := [js "oli-badge"] }

/-- A document containing only `foreignBadgeEl`. -/
def foreignBadgeDoc : Doc :=
  ⟨[foreignBadgeEl], [], [], none, 0, false, false⟩

/-- A qualifying mutation: a `childList` record adding one INPUT element. -/
def qualifyingMutation : MutationRec :=
  ⟨js "childList", [⟨1, js "INPUT"⟩]⟩

/-- Ten qualifying mutations delivered in one observer batch. -/
def tenMutations : List MutationRec := List.replicate 10 qualifyingMutation

/-- The anonymizer state after tokenizing one e-mail address. -/
def oneTokenState : AnonState :=
  (createToken (js "john@example.com") (js "email") initState).2

/-! ## Theorems -/

/-! ### Generic list helpers -/

theorem mapSelf {α : Type} (f : α → α) (l : List α) (h : ∀ x ∈ l, f x = x) :
    l.map f = l := by
  induction l with
  | nil => rfl
  | cons a t ih =>
    simp only [List.map_cons]
    rw [h a (List.mem_cons_self a t), ih (fun x hx => h x (List.mem_cons_of_mem a hx))]

theorem foldlAppendLen {α β : Type} (p : α → Bool) (g : α → β) (ms : List α) :
    ∀ acc : List β,
      (ms.foldl (fun acc m => if p m then acc ++ [g m] else acc) acc).length =
        acc.length + ms.countP p := by
  induction ms with
  | nil => intro acc; simp [List.countP_nil]
  | cons m t ih =>
    intro acc
    simp only [List.foldl]
    by_cases hm : p m
    · rw [if_pos hm, ih, List.countP_cons, if_pos hm]
      simp; omega
    · rw [if_neg hm, ih, List.countP_cons, if_neg hm]
      simp

/-! ### Claim C5: mutation bursts and the debounce -/

/-- C5 counterexample: ten qualifying mutations delivered in one observer
batch dispatch ten `oli-dom-change` notifications, not one — the claimed
debounce does not exist on the mutation path. -/
theorem c5_counterexample :
    (observerCallbackRun tenMutations).length = 10 ∧
    ¬ (observerCallbackRun tenMutations).length = 1 := by
  constructor
  · rfl
  · decide

/-- C5 (amended): every qualifying mutation of a batch dispatches its own
`oli-dom-change` notification (the count equals the number of qualifying
records — no coalescing), while the 500 ms `debounce` helper, which the
scanner applies only to its input-event listener, does collapse a burst of
calls whose consecutive gaps stay within the wait into a single
invocation. -/
theorem c5_amended :
    (∀ ms : List MutationRec,
      (observerCallbackRun ms).length = ms.countP isRelevantMutation) ∧
    (∀ (w t : Nat) (ts : List Nat), gapsWithin w t ts = true →
      (debounceFires w (t :: ts)).length = 1) := by
  constructor
  · intro ms
    have h := foldlAppendLen isRelevantMutation id ms []
    simpa [observerCallbackRun] using h
  · intro w t ts
    induction ts generalizing t with
    | nil => intro _; rfl
    | cons t2 rest ih =>
      intro hc
      rcases Bool.and_eq_true_iff.mp hc with ⟨hle, hchain⟩
      rw [debounceFires, if_pos (by exact Nat.le_of_ble_eq_true (by simpa using hle))]
      exact ih t2 hchain

/-- C5 witness for the amended statement at concrete inputs. -/
theorem c5_amended_witness :
    (observerCallbackRun tenMutations).length = tenMutations.countP isRelevantMutation ∧
    (debounceFires 500 [0, 100, 300]).length = 1 :=
  ⟨c5_amended.1 tenMutations, c5_amended.2 500 0 [100, 300] (by rfl)⟩

/-! ### Claim C6: null-fragment and ok findings are never anchored -/

/-- C6: the panel filter admits a highlight only for checks whose
`highlight_text` is non-null and nonempty and whose status is not
CONFORME; a check with a null fragment or the ok status contributes no
highlight, and applying its (empty) highlight list creates zero
decorations (the registry stays empty). -/
theorem c6_ok_null_never_anchored :
    (∀ checks : List ComplianceCheck, ∀ hl ∈ highlightTextsOf checks,
      ∃ c ∈ checks, c.status ≠ js "CONFORME" ∧
        ∃ t, c.highlight_text = some t ∧ t ≠ [] ∧ hl.text = t) ∧
    (∀ c : ComplianceCheck,
      c.highlight_text = none ∨ c.status = js "CONFORME" →
      highlightTextsOf [c] = []) ∧
    (∀ (ov : JSString) (s : CState) (c : ComplianceCheck),
      c.highlight_text = none ∨ c.status = js "CONFORME" →
      (applyRisks (highlightTextsOf [c]) ov s).registry = []) := by
  refine ⟨?_, ?_, ?_⟩
  · intro checks hl hmem
    rcases List.mem_map.mp hmem with ⟨c, hcf, hce⟩
    rcases List.mem_filter.mp hcf with ⟨hcm, hcond⟩
    rcases Bool.and_eq_true_iff.mp hcond with ⟨ht, hs⟩
    refine ⟨c, hcm, ?_, ?_⟩
    · intro heq
      rw [heq] at hs
      simp at hs
    · cases hht : c.highlight_text with
      | none => rw [hht] at ht; simp [truthyText] at ht
      | some t =>
        refine ⟨t, rfl, ?_, ?_⟩
        · rw [hht] at ht
          simpa [truthyText] using ht
        · rw [← hce, hht]
          rfl
  · intro c hc
    unfold highlightTextsOf
    rcases hc with h | h
    · simp [List.filter, truthyText, h]
    · simp [List.filter, h]
  · intro ov s c hc
    have h0 : highlightTextsOf [c] = [] := by
      unfold highlightTextsOf
      rcases hc with h | h
      · simp [List.filter, truthyText, h]
      · simp [List.filter, h]
    rw [h0]
    rfl

/-- C6 witness: the compliant scenario check `{severity: ok, fragment:
null}` yields no highlight and zero decorations on the sample page. -/
theorem c6_witness :
    highlightTextsOf [⟨js "CONFORME", none⟩] = [] ∧
    (applyRisks (highlightTextsOf [⟨js "CONFORME", none⟩]) (js "CONFORME") sampleState).registry = [] :=
  ⟨c6_ok_null_never_anchored.2.1 ⟨js "CONFORME", none⟩ (Or.inl rfl),
   c6_ok_null_never_anchored.2.2 (js "CONFORME") sampleState ⟨js "CONFORME", none⟩ (Or.inl rfl)⟩

/-! ### Claims C1 and C3: counterexamples -/

/-- C1 counterexample: on a clean page holding one un-styled input, one
`apply`/`clear` cycle does not restore the pre-apply state — the input
ends with an empty `style` attribute where it had none, and the
`badgeScrollHandler` data attribute survives the cleanup. -/
theorem c1_counterexample :
    clearHighlightsMsg (applyRisks sampleFindings (js "CRITIQUE") sampleState) ≠ sampleState ∧
    (clearHighlightsMsg (applyRisks sampleFindings (js "CRITIQUE") sampleState)).doc.elems.map El.styleAttr = [some []] ∧
    sampleState.doc.elems.map El.styleAttr = [none] ∧
    (getData ((clearHighlightsMsg (applyRisks sampleFindings (js "CRITIQUE") sampleState)).doc.elems.headD balanceInput).dataAttrs kBadgeScrollHandler).isSome = true := by
  refine ⟨by decide, by decide, by decide, by decide⟩

/-- C3 counterexample: with the same clean single-input page,
`apply(F1); apply(F2)` and `clear(); apply(F2)` disagree (for `F2 = []`):
the first run keeps the residues of `F1`'s decoration, the second does
not. -/
theorem c3_counterexample :
    applyRisks [] (js "CONFORME") (applyRisks sampleFindings (js "CRITIQUE") sampleState) ≠
    applyRisks [] (js "CONFORME") (clearHighlightsMsg sampleState) := by
  decide

/-! ### Claim C9: the de-anonymization path -/

theorem isPrefixOfSelf (l : JSString) : l.isPrefixOf l = true := by
  induction l with
  | nil => rfl
  | cons c t ih => simp [List.isPrefixOf, ih]

theorem replaceAllSelf (t r : JSString) (h : t ≠ []) : replaceAll t r t = r := by
  unfold replaceAll
  rw [if_neg h]
  cases t with
  | nil => exact absurd rfl h
  | cons c cs =>
    show replaceAllGo (c :: cs) r (cs.length + 1) (c :: cs) = r
    rw [replaceAllGo]
    have hfind : findSubIdx (c :: cs) (c :: cs) = some 0 := by
      unfold findSubIdx findSubIdxGo
      rw [if_pos (isPrefixOfSelf (c :: cs))]
    rw [hfind]
    simp only [List.take_zero, List.nil_append, Nat.zero_add]
    rw [List.drop_length]
    cases hcs : cs.length with
    | zero => simp [replaceAllGo]
    | succ f =>
      rw [replaceAllGo]
      have : findSubIdx [] (c :: cs) = none := by
        unfold findSubIdx findSubIdxGo
        simp
      rw [this, List.append_nil]

/-- C9 counterexample: the redaction engine's public interface does
expose a de-anonymization operation — after tokenizing one e-mail,
`deanonymize` maps the token back to the original value. -/
theorem c9_counterexample :
    deanonymize oneTokenState (js "<EMAIL_1>") = js "john@example.com" ∧
    js "john@example.com" ≠ js "<EMAIL_1>" ∧
    alookup oneTokenState.reverseMap (js "john@example.com") = some (js "<EMAIL_1>") := by
  refine ⟨by decide, by decide, by decide⟩

/-- C9 (amended): the engine does keep an inward reverse path — its
public `deanonymize` replaces each recorded token by the original value
(documented as for local display only; no caller transmits the result
outward): with a single recorded token `t`, `deanonymize` on `t` returns
the original. -/
theorem c9_amended (σ : AnonState) (t : JSString) (info : TokenInfo)
    (h1 : σ.tokenMap = [(t, info)]) (h2 : t ≠ []) :
    deanonymize σ t = info.original := by
  unfold deanonymize
  rw [h1]
  simp only [List.foldl]
  exact replaceAllSelf t info.original h2

/-- C9 witness: the amended statement instantiated on the one-token
session state. -/
theorem c9_amended_witness :
    deanonymize oneTokenState (js "<EMAIL_1>") =
      (⟨js "john@example.com", js "email", js "<EMAIL_1>"⟩ : TokenInfo).original :=
  c9_amended oneTokenState (js "<EMAIL_1>")
    ⟨js "john@example.com", js "email", js "<EMAIL_1>"⟩ (by decide) (by decide)

/-! ### Claim C2: idempotent and injective tokenization -/

theorem natCharsGoDigits :
    ∀ f n, n < f → ∀ c ∈ natCharsGo f n, c.isDigit = true := by
  intro f
  induction f with
  | zero => intro n hn; omega
  | succ f ih =>
    intro n hn c hc
    rw [natCharsGo] at hc
    by_cases h10 : n < 10
    · rw [if_pos h10] at hc
      simp only [List.mem_singleton] at hc
      subst hc
      interval_cases n <;> decide
    · rw [if_neg h10] at hc
      rcases List.mem_append.mp hc with h | h
      · exact ih (n / 10) (by omega) c h
      · simp only [List.mem_singleton] at h
        subst h
        have : n % 10 < 10 := Nat.mod_lt _ (by omega)
        interval_cases hm : n % 10 <;> decide

theorem natCharsDigits (n : Nat) : ∀ c ∈ natChars n, c.isDigit = true :=
  natCharsGoDigits (n + 1) n (Nat.lt_succ_self n)

theorem charsToNatAppend (a b : JSString) :
    charsToNat (a ++ b) = b.foldl (fun x c => 10 * x + (c.toNat - 48)) (charsToNat a) := by
  unfold charsToNat
  rw [List.foldl_append]

theorem charsToNatNatCharsGo :
    ∀ f n, n < f → charsToNat (natCharsGo f n) = n := by
  intro f
  induction f with
  | zero => intro n hn; omega
  | succ f ih =>
    intro n hn
    rw [natCharsGo]
    by_cases h10 : n < 10
    · rw [if_pos h10]
      show charsToNat [digitChar n] = n
      unfold charsToNat
      simp only [List.foldl]
      interval_cases n <;> decide
    · rw [if_neg h10]
      rw [charsToNatAppend]
      simp only [List.foldl]
      rw [ih (n / 10) (by omega)]
      have hd : (digitChar (n % 10)).toNat - 48 = n % 10 := by
        have : n % 10 < 10 := Nat.mod_lt _ (by omega)
        interval_cases hm : n % 10 <;> decide
      rw [hd]
      omega

theorem charsToNatNatChars (n : Nat) : charsToNat (natChars n) = n :=
  charsToNatNatCharsGo (n + 1) n (Nat.lt_succ_self n)

theorem takeWhileAppendStop (p : Char → Bool) (a : JSString) (y : Char) (b : JSString)
    (ha : ∀ x ∈ a, p x = true) (hy : p y = false) :
    (a ++ y :: b).takeWhile p = a := by
  induction a with
  | nil => simp [List.takeWhile, hy]
  | cons c t ih =>
    have hc : p c = true := ha c (List.mem_cons_self c t)
    simp only [List.cons_append, List.takeWhile_cons, hc, if_true]
    rw [ih (fun x hx => ha x (List.mem_cons_of_mem c hx))]

theorem tokenNumMkToken (l : JSString) (n : Nat) : tokenNum (mkToken l n) = n := by
  unfold tokenNum mkToken
  have hrev : (['<'] ++ l ++ ['_'] ++ natChars n ++ ['>']).reverse =
      '>' :: ((natChars n).reverse ++ '_' :: (l.reverse ++ ['<'])) := by
    simp [List.reverse_append]
  rw [hrev]
  simp only [List.drop_succ_cons, List.drop_zero]
  rw [takeWhileAppendStop Char.isDigit ((natChars n).reverse) '_' (l.reverse ++ ['<'])
    (fun x hx => natCharsDigits n x (List.mem_reverse.mp hx)) (by decide)]
  rw [List.reverse_reverse]
  exact charsToNatNatChars n

theorem mkTokenNumInj {l1 l2 : JSString} {n1 n2 : Nat}
    (h : mkToken l1 n1 = mkToken l2 n2) : n1 = n2 := by
  have h1 := tokenNumMkToken l1 n1
  have h2 := tokenNumMkToken l2 n2
  rw [h] at h1
  rw [h2] at h1
  omega

theorem alookupSomeMem {α : Type} {m : List (JSString × α)} {k : JSString} {v : α}
    (h : alookup m k = some v) : (k, v) ∈ m := by
  induction m with
  | nil => cases h
  | cons p ps ih =>
    rw [alookup] at h
    by_cases hk : p.1 = k
    · rw [if_pos hk] at h
      injection h with h
      subst h
      subst hk
      exact List.mem_cons_self _ _
    · rw [if_neg hk] at h
      exact List.mem_cons_of_mem _ (ih h)

theorem alookupAppendNone {α : Type} {a : List (JSString × α)} {k : JSString}
    (h : alookup a k = none) (b : List (JSString × α)) :
    alookup (a ++ b) k = alookup b k := by
  induction a with
  | nil => rfl
  | cons p ps ih =>
    rw [alookup] at h
    by_cases hk : p.1 = k
    · rw [if_pos hk] at h; cases h
    · rw [if_neg hk] at h
      show alookup (p :: (ps ++ b)) k = alookup b k
      rw [alookup, if_neg hk]
      exact ih h

theorem alookupAppendSome {α : Type} {a : List (JSString × α)} {k : JSString} {v : α}
    (h : alookup a k = some v) (b : List (JSString × α)) :
    alookup (a ++ b) k = some v := by
  induction a with
  | nil => cases h
  | cons p ps ih =>
    rw [alookup] at h
    by_cases hk : p.1 = k
    · rw [if_pos hk] at h
      show alookup (p :: (ps ++ b)) k = some v
      rw [alookup, if_pos hk]
      exact h
    · rw [if_neg hk] at h
      show alookup (p :: (ps ++ b)) k = some v
      rw [alookup, if_neg hk]
      exact ih h

theorem createTokenFound {σ : AnonState} {o t : JSString} (ty : JSString)
    (h : alookup σ.reverseMap o = some t) : createToken o ty σ = (t, σ) := by
  unfold createToken
  rw [h]

theorem createTokenNew {σ : AnonState} {o : JSString} (ty : JSString)
    (h : alookup σ.reverseMap o = none) :
    createToken o ty σ =
      (mkToken (sanitizeType ty) (σ.tokenCounter + 1),
       ⟨σ.tokenMap ++ [(mkToken (sanitizeType ty) (σ.tokenCounter + 1),
          ⟨o, ty, mkToken (sanitizeType ty) (σ.tokenCounter + 1)⟩)],
        σ.reverseMap ++ [(o, mkToken (sanitizeType ty) (σ.tokenCounter + 1))],
        σ.tokenCounter + 1⟩) := by
  unfold createToken
  rw [h]

theorem sessionInvInit : SessionInv initState := by
  constructor
  · intro p hp; cases hp
  · intro p hp; cases hp

theorem sessionInvCreate (σ : AnonState) (h : SessionInv σ) (o ty : JSString) :
    SessionInv (createToken o ty σ).2 := by
  cases hl : alookup σ.reverseMap o with
  | some t =>
    rw [createTokenFound ty hl]
    exact h
  | none =>
    rw [createTokenNew ty hl]
    refine ⟨?_, ?_⟩
    · intro p hp
      rcases List.mem_append.mp hp with hm | hm
      · rcases h.1 p hm with ⟨l, k, hk, hk1, hk2⟩
        exact ⟨l, k, hk, hk1, by exact Nat.le_succ_of_le hk2⟩
      · simp only [List.mem_singleton] at hm
        subst hm
        exact ⟨sanitizeType ty, σ.tokenCounter + 1, rfl, by omega, by exact Nat.le_refl _⟩
    · intro p hp q hq hne
      rcases List.mem_append.mp hp with hm | hm <;>
        rcases List.mem_append.mp hq with hm' | hm'
      · exact h.2 p hm q hm' hne
      · simp only [List.mem_singleton] at hm'
        subst hm'
        rcases h.1 p hm with ⟨l, k, hk, hk1, hk2⟩
        simp only
        intro heq
        rw [hk] at heq
        have := mkTokenNumInj heq
        omega
      · simp only [List.mem_singleton] at hm
        subst hm
        rcases h.1 q hm' with ⟨l, k, hk, hk1, hk2⟩
        simp only
        intro heq
        rw [hk] at heq
        have := mkTokenNumInj heq.symm
        omega
      · simp only [List.mem_singleton] at hm hm'
        subst hm; subst hm'
        exact absurd rfl hne

theorem sessionInvRun (reqs : List (JSString × JSString)) :
    ∀ σ, SessionInv σ → SessionInv (runTokens reqs σ) := by
  induction reqs with
  | nil => intro σ h; exact h
  | cons r t ih =>
    intro σ h
    exact ih _ (sessionInvCreate σ h r.1 r.2)

theorem sessionInvReachable {σ : AnonState} (h : Reachable σ) : SessionInv σ := by
  rcases h with ⟨reqs, hr⟩
  rw [hr]
  exact sessionInvRun reqs initState sessionInvInit

/-- C2: within one session, tokenizing the same original value again
yields the identical token string, and tokenizing a distinct original
value never yields the same token. -/
theorem c2_tokenization (σ : AnonState) (h : Reachable σ)
    (o1 ty1 o2 ty2 : JSString) :
    (o1 = o2 →
      (createToken o2 ty2 (createToken o1 ty1 σ).2).1 = (createToken o1 ty1 σ).1) ∧
    (o1 ≠ o2 →
      (createToken o2 ty2 (createToken o1 ty1 σ).2).1 ≠ (createToken o1 ty1 σ).1) := by
  have hinv := sessionInvReachable h
  cases hl1 : alookup σ.reverseMap o1 with
  | some t1 =>
    rw [createTokenFound ty1 hl1]
    have hmem1 : (o1, t1) ∈ σ.reverseMap := alookupSomeMem hl1
    constructor
    · intro heq
      subst heq
      rw [createTokenFound ty2 hl1]
    · intro hne
      cases hl2 : alookup σ.reverseMap o2 with
      | some t2 =>
        rw [createTokenFound ty2 hl2]
        have hmem2 : (o2, t2) ∈ σ.reverseMap := alookupSomeMem hl2
        exact hinv.2 (o2, t2) hmem2 (o1, t1) hmem1 (Ne.symm hne)
      | none =>
        rw [createTokenNew ty2 hl2]
        rcases hinv.1 (o1, t1) hmem1 with ⟨l, k, hk, hk1, hk2⟩
        have hk' : t1 = mkToken l k := hk
        simp only
        intro heq
        rw [hk'] at heq
        have := mkTokenNumInj heq
        omega
  | none =>
    rw [createTokenNew ty1 hl1]
    simp only
    constructor
    · intro heq
      subst heq
      have hfind : alookup
          (σ.reverseMap ++ [(o1, mkToken (sanitizeType ty1) (σ.tokenCounter + 1))]) o1 =
          some (mkToken (sanitizeType ty1) (σ.tokenCounter + 1)) := by
        rw [alookupAppendNone hl1]
        unfold alookup
        rw [if_pos rfl]
      rw [createTokenFound ty2 hfind]
    · intro hne
      cases hx : alookup σ.reverseMap o2 with
      | some t2 =>
        have hfind : alookup
            (σ.reverseMap ++ [(o1, mkToken (sanitizeType ty1) (σ.tokenCounter + 1))]) o2 =
            some t2 := alookupAppendSome hx _
        rw [createTokenFound ty2 hfind]
        have hmem2 : (o2, t2) ∈ σ.reverseMap := alookupSomeMem hx
        rcases hinv.1 (o2, t2) hmem2 with ⟨l, k, hk, hk1, hk2⟩
        have hk' : t2 = mkToken l k := hk
        simp only
        intro heq
        rw [hk'] at heq
        have := mkTokenNumInj heq
        omega
      | none =>
        have hfind : alookup
            (σ.reverseMap ++ [(o1, mkToken (sanitizeType ty1) (σ.tokenCounter + 1))]) o2 =
            none := by
          rw [alookupAppendNone hx]
          unfold alookup
          rw [if_neg hne]
          rfl
        rw [createTokenNew ty2 hfind]
        simp only
        intro heq
        have := mkTokenNumInj heq
        omega

/-- C2 witness: two distinct e-mail addresses tokenized from the reset
state receive distinct tokens. -/
theorem c2_witness :
    (createToken (js "bob@example.com") (js "email")
        (createToken (js "alice@example.com") (js "email") initState).2).1 ≠
      (createToken (js "alice@example.com") (js "email") initState).1 :=
  (c2_tokenization initState ⟨[], rfl⟩ (js "alice@example.com") (js "email")
    (js "bob@example.com") (js "email")).2 (by decide)

/-! ### Claim C10: the bankAccount pattern is never applied -/

theorem charAtSome {s : JSString} {i : Nat} (h : i < s.length) :
    charAt s i = some s[i] := by
  unfold charAt
  exact List.getElem?_eq_getElem h

theorem dropAtCons {s : JSString} {i : Nat} (h : i < s.length) :
    s.drop i = s[i] :: s.drop (i + 1) :=
  List.drop_eq_getElem_cons h

theorem replaceGoNone (m : Matcher) (ty : JSString) (s : JSString) (σ : AnonState)
    (h : ∀ i, i < s.length → m s i = none) :
    ∀ n i, s.length - i ≤ n → replaceGo m ty s i σ = (s.drop i, σ) := by
  intro n
  induction n with
  | zero =>
    intro i hi
    rw [replaceGo, dif_pos (by omega)]
    rw [List.drop_eq_nil_of_le (by omega)]
  | succ n ih =>
    intro i hi
    by_cases hle : s.length ≤ i
    · rw [replaceGo, dif_pos hle]
      rw [List.drop_eq_nil_of_le hle]
    · rw [replaceGo, dif_neg hle]
      have hlt : i < s.length := by omega
      rw [h i hlt]
      rw [charAtSome hlt]
      simp only
      rw [ih (i + 1) (by omega)]
      rw [← dropAtCons hlt]

theorem replacePatternNone (m : Matcher) (ty text : JSString) (σ : AnonState)
    (h : ∀ i, i < text.length → m text i = none) :
    replacePattern m ty text σ = (text, σ) := by
  unfold replacePattern
  rw [replaceGoNone m ty text σ h text.length 0 (by omega)]
  rw [List.drop_zero]

theorem containsSubOfPrefixAt {s pat : JSString} {i : Nat} (hi : i ≤ s.length)
    (h : pat.isPrefixOf (s.drop i) = true) : containsSub s pat = true := by
  unfold containsSub
  rw [List.any_eq_true]
  exact ⟨i, List.mem_range.mpr (by omega), h⟩

theorem containsSubNil (s : JSString) : containsSub s [] = true := by
  unfold containsSub
  rw [List.any_eq_true]
  refine ⟨0, List.mem_range.mpr (by omega), ?_⟩
  simp [List.isPrefixOf]

theorem indicatorMatchNone {s ind : JSString} (h : containsSub s ind = false) :
    ∀ i, indicatorMatchAt ind s i = none := by
  intro i
  have hpf : ind.isPrefixOf (s.drop i) = false := by
    by_cases hi : i ≤ s.length
    · cases hp : ind.isPrefixOf (s.drop i) with
      | false => rfl
      | true => rw [containsSubOfPrefixAt hi hp] at h; cases h
    · rw [List.drop_eq_nil_of_le (by omega)]
      cases ind with
      | nil => rw [containsSubNil] at h; cases h
      | cons c t => rfl
  unfold indicatorMatchAt
  rw [hpf]
  simp

theorem properNounGoNone (ind : JSString) (s : JSString) (σ : AnonState)
    (h : ∀ i, indicatorMatchAt ind s i = none) :
    ∀ n i, s.length - i ≤ n → properNounGo ind s i σ = (s.drop i, σ) := by
  intro n
  induction n with
  | zero =>
    intro i hi
    rw [properNounGo, dif_pos (by omega)]
    rw [List.drop_eq_nil_of_le (by omega)]
  | succ n ih =>
    intro i hi
    by_cases hle : s.length ≤ i
    · rw [properNounGo, dif_pos hle]
      rw [List.drop_eq_nil_of_le hle]
    · rw [properNounGo, dif_neg hle]
      have hlt : i < s.length := by omega
      rw [h i]
      rw [charAtSome hlt]
      simp only
      rw [ih (i + 1) (by omega)]
      rw [← dropAtCons hlt]

theorem anonymizeProperNounsNone (text : JSString) (σ : AnonState)
    (h : ∀ ind ∈ nameIndicators, containsSub text ind = false) :
    anonymizeProperNouns text σ = (text, σ) := by
  unfold anonymizeProperNouns
  have hgen : ∀ l : List JSString, (∀ ind ∈ l, containsSub text ind = false) →
      l.foldl (fun acc ind => properNounGo ind acc.1 0 acc.2) (text, σ) = (text, σ) := by
    intro l
    induction l with
    | nil => intro _; rfl
    | cons ind t ih =>
      intro hl
      simp only [List.foldl]
      have hstep : properNounGo ind text 0 σ = (text, σ) := by
        have := properNounGoNone ind text σ
          (indicatorMatchNone (hl ind (List.mem_cons_self ind t))) text.length 0 (by omega)
        rwa [List.drop_zero] at this
      rw [hstep]
      exact ih (fun x hx => hl x (List.mem_cons_of_mem ind hx))
  exact hgen nameIndicators h

/-- C10: string redaction never applies the generic bank-account pattern:
on any text where no other category pattern matches anywhere and no name
indicator occurs — in particular a bare 5-to-12-digit number, which the
(defined, but skipped) `bankAccount` pattern would match — the output
equals the input and the token state is untouched. -/
theorem c10_bank_account_skipped (text : JSString) (σ : AnonState)
    (hnum : ∃ i, (bankAccountM text i).isSome = true)
    (hp : ∀ pr ∈ patternsList, pr.1 ≠ js "bankAccount" →
      ∀ i, i < text.length → pr.2 text i = none)
    (hn : ∀ ind ∈ nameIndicators, containsSub text ind = false) :
    anonymizeString text σ = (text, σ) ∧
    (js "bankAccount", bankAccountM) ∈ patternsList := by
  constructor
  · unfold anonymizeString
    have hgen : ∀ l : List (JSString × Matcher),
        (∀ pr ∈ l, pr.1 ≠ js "bankAccount" → ∀ i, i < text.length → pr.2 text i = none) →
        l.foldl (fun acc pr =>
          if pr.1 = js "bankAccount" then acc
          else replacePattern pr.2 pr.1 acc.1 acc.2) (text, σ) = (text, σ) := by
      intro l
      induction l with
      | nil => intro _; rfl
      | cons pr t ih =>
        intro hl
        simp only [List.foldl]
        by_cases hb : pr.1 = js "bankAccount"
        · rw [if_pos hb]
          exact ih (fun x hx => hl x (List.mem_cons_of_mem pr hx))
        · rw [if_neg hb]
          rw [replacePatternNone pr.2 pr.1 text σ
            (hl pr (List.mem_cons_self pr t) hb)]
          exact ih (fun x hx => hl x (List.mem_cons_of_mem pr hx))
    rw [hgen patternsList hp]
    exact anonymizeProperNounsNone text σ hn
  · unfold patternsList
    refine List.mem_cons_of_mem _ (List.mem_cons_of_mem _ (List.mem_cons_of_mem _
      (List.mem_cons_of_mem _ (List.mem_cons_of_mem _ (List.mem_cons_of_mem _
      (List.mem_cons_of_mem _ (List.mem_cons_of_mem _ (List.mem_cons_self _ _))))))))

/-- C10 witness: the bare five-digit number `20635` survives string
redaction unchanged even though `bankAccount` matches it. -/
theorem c10_witness :
    anonymizeString (js "20635") initState = (js "20635", initState) ∧
    (js "bankAccount", bankAccountM) ∈ patternsList := by
  refine c10_bank_account_skipped (js "20635") initState ⟨0, by decide⟩ ?_ ?_
  · intro pr hpr
    fin_cases hpr <;> first
      | (intro hne; exact absurd rfl hne)
      | (intro _ i hi
         have h5 : i < 5 := hi
         interval_cases i <;> decide)
  · intro ind hind
    fin_cases hind <;> decide

/-! ### Claim C4: tier-1 live-value matches win -/

theorem bestGoMono (tl : Option JSString) (nkv : JSString) :
    ∀ (es : List El) (i : Nat) (b : Option Nat × Nat),
      b.2 ≤ (bestInputGo tl nkv i es b).2 := by
  intro es
  induction es with
  | nil => intro i b; exact Nat.le_refl _
  | cons e t ih =>
    intro i b
    rw [bestInputGo]
    refine Nat.le_trans ?_ (ih (i + 1) _)
    by_cases hq : isFormFieldTag e && ¬ skippedInputType e
    · rw [if_pos hq]
      by_cases hlt : b.2 < inputMatchScore tl nkv e
      · rw [if_pos hlt]; exact Nat.le_of_lt hlt
      · rw [if_neg hlt]
    · rw [if_neg hq]

theorem bestGoGe (tl : Option JSString) (nkv : JSString) :
    ∀ (es : List El) (i : Nat) (b : Option Nat × Nat) (e : El), e ∈ es →
      isFormFieldTag e = true → skippedInputType e = false →
      inputMatchScore tl nkv e ≤ (bestInputGo tl nkv i es b).2 := by
  intro es
  induction es with
  | nil => intro i b e he; cases he
  | cons e0 t ih =>
    intro i b e he hf hs
    rcases List.mem_cons.mp he with heq | hm
    · subst heq
      rw [bestInputGo]
      have hq : (isFormFieldTag e && ¬ skippedInputType e) = true := by
        rw [hf, hs]; rfl
      rw [if_pos hq]
      refine Nat.le_trans ?_ (bestGoMono tl nkv t (i + 1) _)
      by_cases hlt : b.2 < inputMatchScore tl nkv e
      · rw [if_pos hlt]
      · rw [if_neg hlt]; omega
    · rw [bestInputGo]
      exact ih (i + 1) _ e hm hf hs

theorem bestGoSome (tl : Option JSString) (nkv : JSString) :
    ∀ (es : List El) (i : Nat) (b : Option Nat × Nat),
      (b.2 = 0 ∨ b.1.isSome = true) →
      ((bestInputGo tl nkv i es b).2 = 0 ∨ (bestInputGo tl nkv i es b).1.isSome = true) := by
  intro es
  induction es with
  | nil => intro i b hb; exact hb
  | cons e t ih =>
    intro i b hb
    rw [bestInputGo]
    refine ih (i + 1) _ ?_
    by_cases hq : isFormFieldTag e && ¬ skippedInputType e
    · rw [if_pos hq]
      by_cases hlt : b.2 < inputMatchScore tl nkv e
      · rw [if_pos hlt]; exact Or.inr rfl
      · rw [if_neg hlt]; exact hb
    · rw [if_neg hq]; exact hb

theorem inputScoreTen (tl : Option JSString) (nkv : JSString) (e : El)
    (hv : normWs e.value ≠ [])
    (hc : containsSub (normWs e.value) nkv = true ∨ containsSub nkv (normWs e.value) = true) :
    10 ≤ inputMatchScore tl nkv e := by
  unfold inputMatchScore
  have h10 : (if normWs e.value ≠ [] ∧
      (containsSub (normWs e.value) nkv || containsSub nkv (normWs e.value) ||
        normWs e.value = nkv) then (10 : Nat) else 0) = 10 := by
    rw [if_pos]
    refine ⟨hv, ?_⟩
    rcases hc with h | h <;> simp [h]
  cases tl with
  | none => simp only; omega
  | some l => simp only [h10]; omega

/-- C4: whenever some editable (non-utility) field's normalized live value
contains or is contained in the key value normalized from the fragment,
the locator resolves at tier 1 — it returns an `input`-typed result, never
falling through to the structural-container or free-text tiers, whatever
the rest of the page holds. -/
theorem c4_tier1_priority (d : Doc) (frag : JSString) (e : El)
    (he : e ∈ d.elems)
    (hf : isFormFieldTag e = true) (hs : skippedInputType e = false)
    (hv : normWs e.value ≠ [])
    (hc : containsSub (normWs e.value) (normWs (extractKeyValue frag)) = true ∨
          containsSub (normWs (extractKeyValue frag)) (normWs e.value) = true) :
    ∃ j, findBestMatchElement d frag (extractKeyValue frag) = some ⟨j, js "input"⟩ := by
  unfold findBestMatchElement
  have h10 : 10 ≤ (bestInputGo (extractTargetLabel frag)
      (normWs (extractKeyValue frag)) 0 d.elems (none, 0)).2 :=
    Nat.le_trans (inputScoreTen _ _ e hv hc)
      (bestGoGe _ _ d.elems 0 (none, 0) e he hf hs)
  have h3 : 3 ≤ (bestInputGo (extractTargetLabel frag)
      (normWs (extractKeyValue frag)) 0 d.elems (none, 0)).2 := by omega
  rw [if_pos h3]
  have hsome := bestGoSome (extractTargetLabel frag)
    (normWs (extractKeyValue frag)) d.elems 0 (none, 0) (Or.inl rfl)
  rcases hsome with h0 | hs'
  · omega
  · cases hb : (bestInputGo (extractTargetLabel frag)
        (normWs (extractKeyValue frag)) 0 d.elems (none, 0)).1 with
    | none => rw [hb] at hs'; cases hs'
    | some j => exact ⟨j, rfl⟩

/-- C4 witness: with live value `20635` and fragment
`Field [Funds]: 20635`, the locator resolves the input tier even though a
table cell elsewhere contains the same text. -/
theorem c4_witness :
    ∃ j, findBestMatchElement tierDoc (js "Field [Funds]: 20635")
      (extractKeyValue (js "Field [Funds]: 20635")) = some ⟨j, js "input"⟩ :=
  c4_tier1_priority tierDoc (js "Field [Funds]: 20635") fundsInput
    (by decide) (by decide) (by decide) (by decide) (Or.inl (by decide))

/-! ### Claim C8: graceful miss -/

theorem findElemIdxNone (p : El → Bool) :
    ∀ (es : List El), (∀ e ∈ es, p e = false) → ∀ i, findElemIdx p i es = none := by
  intro es
  induction es with
  | nil => intro _ i; rfl
  | cons e t ih =>
    intro h i
    rw [findElemIdx]
    rw [h e (List.mem_cons_self e t)]
    simp only [Bool.false_eq_true, if_false]
    exact ih (fun x hx => h x (List.mem_cons_of_mem e hx)) (i + 1)

theorem findWrapHitNoneOfText (a b : JSString) :
    ∀ (sl : List Slot), (∀ x ∈ sl, ∃ t, x = Slot.textNode t) →
      ∀ j, findWrapHit a b j sl = none := by
  intro sl
  induction sl with
  | nil => intro _ j; rfl
  | cons x t ih =>
    intro h j
    rcases h x (List.mem_cons_self x t) with ⟨tx, hx⟩
    subst hx
    rw [findWrapHit]
    exact ih (fun y hy => h y (List.mem_cons_of_mem _ hy)) (j + 1)

theorem findWrapTargetNone (variants : List JSString) :
    ∀ (sl : List Slot),
      (∀ t, Slot.textNode t ∈ sl → ∀ v ∈ variants, containsSub t v = false) →
      ∀ j, findWrapTarget variants j sl = none := by
  intro sl
  induction sl with
  | nil => intro _ j; rfl
  | cons x rest ih =>
    intro h j
    cases x with
    | textNode t =>
      rw [findWrapTarget]
      have hfind : variants.find? (fun v => containsSub t v) = none := by
        rw [List.find?_eq_none]
        intro v hv
        rw [h t (List.mem_cons_self _ _) v hv]
        simp
      by_cases htr : trimJS t = []
      · rw [if_pos htr]
        exact ih (fun t' ht' v hv => h t' (List.mem_cons_of_mem _ ht') v hv) (j + 1)
      · rw [if_neg htr, hfind]
        exact ih (fun t' ht' v hv => h t' (List.mem_cons_of_mem _ ht') v hv) (j + 1)
    | wrapped w =>
      rw [findWrapTarget]
      exact ih (fun t' ht' v hv => h t' (List.mem_cons_of_mem _ ht') v hv) (j + 1)

theorem notMemOfContainsFalse {cs : List JSString} {c : JSString}
    (h : cs.contains c = false) : c ∉ cs := by
  intro hm
  have : cs.contains c = true := List.elem_eq_true_of_mem hm
  rw [this] at h
  cases h

theorem removeClsOfNotContains {cs : List JSString} {c : JSString}
    (h : cs.contains c = false) : removeCls cs c = cs := by
  unfold removeCls
  rw [List.filter_eq_self]
  intro x hx
  rw [decide_eq_true_eq]
  intro heq
  subst heq
  exact notMemOfContainsFalse h hx

theorem defocusElId {e : El} (h : e.classes.contains (js "oli-focus-highlight") = false) :
    defocusEl e = e := by
  unfold defocusEl
  rw [removeClsOfNotContains h]

theorem defocusDocId {d : Doc}
    (hcl : ∀ e ∈ d.elems, e.classes.contains (js "oli-focus-highlight") = false)
    (hsl : ∀ sl ∈ d.slots, ∃ t, sl = Slot.textNode t) :
    { d with elems := d.elems.map defocusEl, slots := d.slots.map defocusSlot } = d := by
  have he : d.elems.map defocusEl = d.elems :=
    mapSelf _ _ (fun e hin => defocusElId (hcl e hin))
  have hs : d.slots.map defocusSlot = d.slots :=
    mapSelf _ _ (fun sl hin => by
      rcases hsl sl hin with ⟨t, ht⟩
      subst ht
      rfl)
  rw [he, hs]

/-- C8: a fragment that matches no tier of the locator — no existing
highlight, no best-match element, no text node containing any search
variant — makes `findAndScrollToText` return `false` without mutating the
tree (the model is total, so no exception is possible). -/
theorem c8_graceful_miss (s : CState) (frag status msg : JSString)
    (hcl : ∀ e ∈ s.doc.elems, e.classes.contains (js "oli-highlight") = false ∧
      e.classes.contains (js "oli-focus-highlight") = false)
    (hsl : ∀ sl ∈ s.doc.slots, ∃ t, sl = Slot.textNode t)
    (hbm : findBestMatchElement s.doc frag (extractKeyValue frag) = none)
    (htx : ∀ t, Slot.textNode t ∈ s.doc.slots →
      ∀ v ∈ searchVariants frag (extractKeyValue frag), containsSub t v = false) :
    findAndScrollToText frag status msg true s = (false, s) := by
  unfold findAndScrollToText
  have hd0 : { s.doc with elems := s.doc.elems.map defocusEl, slots := s.doc.slots.map defocusSlot } = s.doc := defocusDocId (fun e hin => (hcl e hin).2) hsl
  rw [hd0]
  have hex : findExistingHighlight s.doc frag (extractKeyValue frag) = none := by
    unfold findExistingHighlight
    have h1 : findElemIdx (fun e => e.classes.contains (js "oli-highlight") &&
        (containsSub (elValueOrText e) frag ||
         containsSub (elValueOrText e) (extractKeyValue frag))) 0 s.doc.elems = none := by
      apply findElemIdxNone
      intro e hin
      rw [(hcl e hin).1]
      rfl
    rw [h1]
    rw [findWrapHitNoneOfText _ _ s.doc.slots hsl 0]
  simp only [eq_self_iff_true, if_true, hex, hbm,
    findWrapTargetNone (searchVariants frag (extractKeyValue frag)) s.doc.slots htx 0]

/-- C8 witness: `nonexistent-fragment-xyz` misses every tier on the
sample page and the call reports `false` with the state untouched. -/
theorem c8_witness :
    findAndScrollToText (js "nonexistent-fragment-xyz") (js "CRITIQUE") (js "m") true
      sampleState = (false, sampleState) :=
  c8_graceful_miss sampleState (js "nonexistent-fragment-xyz") (js "CRITIQUE") (js "m")
    (by decide)
    (by
      intro sl hin
      have h : sl = Slot.textNode (js "Revenu : 5 000 $") := by
        simpa [sampleState, sampleDoc] using hin
      exact ⟨_, h⟩)
    (by decide)
    (by
      intro t ht v hv
      have ht' : t = js "Revenu : 5 000 $" := by
        simpa [sampleState, sampleDoc, Slot.textNode.injEq] using ht
      subst ht'
      exact (by decide : ∀ v ∈ searchVariants (js "nonexistent-fragment-xyz")
        (extractKeyValue (js "nonexistent-fragment-xyz")),
        containsSub (js "Revenu : 5 000 $") v = false) v hv)

/-! ### Registry-restore frame lemmas (shared by the clear/apply claims) -/

theorem restoreRefSlotElems (d : Doc) (j : Nat) :
    (restoreRef d (Ref.slotRef j)).elems = d.elems := by
  cases hs : d.slots[j]? with
  | none => simp [restoreRef, hs]
  | some sl => cases sl <;> simp [restoreRef, hs]

theorem restoreRefElemSlots (d : Doc) (i : Nat) :
    (restoreRef d (Ref.elemRef i)).slots = d.slots := by
  cases he : d.elems[i]? <;> simp [restoreRef, he]

theorem restoreRefElemsNe (d : Doc) (r : Ref) (i : Nat) (h : r ≠ Ref.elemRef i) :
    (restoreRef d r).elems[i]? = d.elems[i]? := by
  cases r with
  | slotRef j => rw [restoreRefSlotElems]
  | elemRef i' =>
    have hne : i' ≠ i := fun he => h (by rw [he])
    cases hg : d.elems[i']? with
    | none => simp [restoreRef, hg]
    | some e =>
      simp only [restoreRef, hg]
      exact List.getElem?_set_ne hne

theorem restoreRefSlotsNe (d : Doc) (r : Ref) (j : Nat) (h : r ≠ Ref.slotRef j) :
    (restoreRef d r).slots[j]? = d.slots[j]? := by
  cases r with
  | elemRef i => rw [restoreRefElemSlots]
  | slotRef j' =>
    have hne : j' ≠ j := fun he => h (by rw [he])
    cases hg : d.slots[j']? with
    | none => simp [restoreRef, hg]
    | some sl =>
      cases sl with
      | textNode t => simp [restoreRef, hg]
      | wrapped w =>
        simp only [restoreRef, hg]
        exact List.getElem?_set_ne hne

theorem foldRestoreElemsNotMem :
    ∀ (rs : List Ref) (d : Doc) (i : Nat), Ref.elemRef i ∉ rs →
      (rs.foldl restoreRef d).elems[i]? = d.elems[i]? := by
  intro rs
  induction rs with
  | nil => intro d i _; rfl
  | cons r t ih =>
    intro d i h
    have h1 : r ≠ Ref.elemRef i := fun he => h (he ▸ List.mem_cons_self r t)
    have h2 : Ref.elemRef i ∉ t := fun hm => h (List.mem_cons_of_mem r hm)
    show (t.foldl restoreRef (restoreRef d r)).elems[i]? = _
    rw [ih (restoreRef d r) i h2]
    exact restoreRefElemsNe d r i (fun he => h1 he)

theorem foldRestoreSlotsNotMem :
    ∀ (rs : List Ref) (d : Doc) (j : Nat), Ref.slotRef j ∉ rs →
      (rs.foldl restoreRef d).slots[j]? = d.slots[j]? := by
  intro rs
  induction rs with
  | nil => intro d j _; rfl
  | cons r t ih =>
    intro d j h
    have h1 : r ≠ Ref.slotRef j := fun he => h (he ▸ List.mem_cons_self r t)
    have h2 : Ref.slotRef j ∉ t := fun hm => h (List.mem_cons_of_mem r hm)
    show (t.foldl restoreRef (restoreRef d r)).slots[j]? = _
    rw [ih (restoreRef d r) j h2]
    exact restoreRefSlotsNe d r j (fun he => h1 he)

theorem foldRestoreElemsMem :
    ∀ (rs : List Ref) (d : Doc) (i : Nat), rs.Nodup → Ref.elemRef i ∈ rs →
      (rs.foldl restoreRef d).elems[i]? = d.elems[i]?.map restoreEl := by
  intro rs
  induction rs with
  | nil => intro d i _ h; cases h
  | cons r t ih =>
    intro d i hnd hm
    rcases List.mem_cons.mp hm with heq | hmt
    · subst heq
      have hnt : Ref.elemRef i ∉ t := (List.nodup_cons.mp hnd).1
      show (t.foldl restoreRef (restoreRef d (Ref.elemRef i))).elems[i]? = _
      rw [foldRestoreElemsNotMem t _ i hnt]
      cases hg : d.elems[i]? with
      | none => simp [restoreRef, hg]
      | some e =>
        have hlt : i < d.elems.length := by
          by_contra hge
          rw [List.getElem?_eq_none (by omega)] at hg
          cases hg
        simp only [restoreRef, hg, Option.map_some']
        rw [List.getElem?_set_self']
        rw [List.getElem?_eq_getElem hlt]
        rfl
    · show (t.foldl restoreRef (restoreRef d r)).elems[i]? = _
      rw [ih _ i (List.nodup_cons.mp hnd).2 hmt]
      have h1 : r ≠ Ref.elemRef i := by
        intro he
        subst he
        exact (List.nodup_cons.mp hnd).1 hmt
      rw [restoreRefElemsNe d r i h1]

theorem foldRestoreSlotsMem :
    ∀ (rs : List Ref) (d : Doc) (j : Nat), rs.Nodup → Ref.slotRef j ∈ rs →
      (rs.foldl restoreRef d).slots[j]? = d.slots[j]?.map restoreSlot := by
  intro rs
  induction rs with
  | nil => intro d j _ h; cases h
  | cons r t ih =>
    intro d j hnd hm
    rcases List.mem_cons.mp hm with heq | hmt
    · subst heq
      have hnt : Ref.slotRef j ∉ t := (List.nodup_cons.mp hnd).1
      show (t.foldl restoreRef (restoreRef d (Ref.slotRef j))).slots[j]? = _
      rw [foldRestoreSlotsNotMem t _ j hnt]
      cases hg : d.slots[j]? with
      | none => simp [restoreRef, hg]
      | some sl =>
        have hlt : j < d.slots.length := by
          by_contra hge
          rw [List.getElem?_eq_none (by omega)] at hg
          cases hg
        cases sl with
        | textNode tx => simp [restoreRef, hg, restoreSlot]
        | wrapped w =>
          simp only [restoreRef, hg, Option.map_some']
          rw [List.getElem?_set_self']
          rw [List.getElem?_eq_getElem hlt]
          simp [restoreSlot]
    · show (t.foldl restoreRef (restoreRef d r)).slots[j]? = _
      rw [ih _ j (List.nodup_cons.mp hnd).2 hmt]
      have h1 : r ≠ Ref.slotRef j := by
        intro he
        subst he
        exact (List.nodup_cons.mp hnd).1 hmt
      rw [restoreRefSlotsNe d r j h1]

theorem foldRestorePreservesElemPred (P : El → Prop)
    (hP : ∀ e, P e → P (restoreEl e)) :
    ∀ (rs : List Ref) (d : Doc), (∀ e ∈ d.elems, P e) →
      ∀ x ∈ (rs.foldl restoreRef d).elems, P x := by
  intro rs
  induction rs with
  | nil => intro d h x hx; exact h x hx
  | cons r t ih =>
    intro d h x hx
    refine ih (restoreRef d r) ?_ x hx
    intro e he
    cases r with
    | slotRef j =>
      rw [restoreRefSlotElems] at he
      exact h e he
    | elemRef i =>
      cases hg : d.elems[i]? with
      | none =>
        simp only [restoreRef, hg] at he
        exact h e he
      | some e0 =>
        simp only [restoreRef, hg] at he
        rcases List.mem_or_eq_of_mem_set he with hm | heq
        · exact h e hm
        · subst heq
          exact hP e0 (h e0 (List.getElem?_mem hg))

theorem foldRestoreBodyBadges :
    ∀ (rs : List Ref) (d : Doc), (rs.foldl restoreRef d).bodyBadges = d.bodyBadges := by
  intro rs
  induction rs with
  | nil => intro d; rfl
  | cons r t ih =>
    intro d
    show (t.foldl restoreRef (restoreRef d r)).bodyBadges = _
    rw [ih]
    cases r with
    | slotRef j => cases hs : d.slots[j]? with
      | none => simp [restoreRef, hs]
      | some sl => cases sl <;> simp [restoreRef, hs]
    | elemRef i => cases he : d.elems[i]? <;> simp [restoreRef, he]

theorem foldRestoreIndicator :
    ∀ (rs : List Ref) (d : Doc), (rs.foldl restoreRef d).indicator = d.indicator := by
  intro rs
  induction rs with
  | nil => intro d; rfl
  | cons r t ih =>
    intro d
    show (t.foldl restoreRef (restoreRef d r)).indicator = _
    rw [ih]
    cases r with
    | slotRef j => cases hs : d.slots[j]? with
      | none => simp [restoreRef, hs]
      | some sl => cases sl <;> simp [restoreRef, hs]
    | elemRef i => cases he : d.elems[i]? <;> simp [restoreRef, he]

theorem restoreElNoBadgeCls {e : El}
    (h : e.classes.contains (js "oli-badge") = false) :
    (restoreEl e).classes.contains (js "oli-badge") = false := by
  unfold restoreEl
  simp only
  cases hc : (removeCls (removeCls e.classes (js "oli-highlight"))
      (js "oli-focus-highlight")).contains (js "oli-badge") with
  | false => rfl
  | true =>
    exfalso
    have hm : (js "oli-badge") ∈ removeCls (removeCls e.classes (js "oli-highlight"))
        (js "oli-focus-highlight") := by
      have := List.mem_of_elem_eq_true hc
      exact this
    unfold removeCls at hm
    have hm1 := List.mem_of_mem_filter (List.mem_of_mem_filter hm)
    exact notMemOfContainsFalse h hm1

/-! ### Claim C7: cleanup and the registry -/

/-- C7 counterexample: with an empty registry, `clear()` still removes a
foreign element that merely carries the `oli-badge` class — cleanup
re-scans the tree rather than consulting only the registry. -/
theorem c7_counterexample :
    (clearHighlightsMsg ⟨foreignBadgeDoc, []⟩).doc.elems = [] ∧
    foreignBadgeDoc.elems = [foreignBadgeEl] ∧
    clearHighlightsMsg ⟨foreignBadgeDoc, []⟩ ≠ ⟨foreignBadgeDoc, []⟩ := by
  refine ⟨by decide, by decide, by decide⟩

/-- C7 (amended): element restoration is driven purely by the registry —
every element not referenced there keeps its state except for
badge-children removal — but badge removal is a whole-document class
query, so cleanup as a whole is not a pure function of the registry. -/
theorem c7_amended (s : CState)
    (hb : ∀ e ∈ s.doc.elems, e.classes.contains (js "oli-badge") = false) :
    (∀ i, Ref.elemRef i ∉ s.registry →
      (clearHighlightsMsg s).doc.elems[i]? = (s.doc.elems[i]?).map zeroBadgeKids) ∧
    (clearHighlightsMsg s).doc.bodyBadges = [] ∧
    (clearHighlightsMsg s).registry = [] := by
  refine ⟨?_, rfl, rfl⟩
  intro i hi
  show ((((s.registry.foldl restoreRef s.doc).elems.filter
      (fun e => ¬ e.classes.contains (js "oli-badge"))).map zeroBadgeKids))[i]? = _
  have hfil : ((s.registry.foldl restoreRef s.doc).elems.filter
      (fun e => ¬ e.classes.contains (js "oli-badge"))) =
      (s.registry.foldl restoreRef s.doc).elems := by
    rw [List.filter_eq_self]
    intro x hx
    have hpx : x.classes.contains (js "oli-badge") = false :=
      foldRestorePreservesElemPred
        (fun e => e.classes.contains (js "oli-badge") = false)
        (fun e he => restoreElNoBadgeCls he) s.registry s.doc hb x hx
    simp only [Bool.not_eq_true, decide_eq_true_eq]
    exact hpx
  rw [hfil, List.getElem?_map, foldRestoreElemsNotMem s.registry s.doc i hi]

/-- C7 witness: the amended statement on the clean sample state. -/
theorem c7_amended_witness :
    (clearHighlightsMsg sampleState).doc.elems[0]? =
      (sampleState.doc.elems[0]?).map zeroBadgeKids ∧
    (clearHighlightsMsg sampleState).doc.bodyBadges = [] ∧
    (clearHighlightsMsg sampleState).registry = [] := by
  have h := c7_amended sampleState (by decide)
  exact ⟨h.1 0 (by decide), h.2.1, h.2.2⟩

/-! ### The implicit clear of the apply handler -/

/-- The badge step ignores the indicator slot of the document. -/
theorem badgeStepSetIndic (st : JSString) (d : Doc) (v : Option JSString) (e2 : El) :
    badgeStep st { d with indicator := v } e2 =
      ((badgeStep st d e2).1, { (badgeStep st d e2).2 with indicator := v }) := by
  simp only [badgeStep]
  split_ifs <;> rfl

/-- The focus pulse commutes with overwriting the indicator. -/
theorem scrollPulseSetIndic (r : Ref) (v : Option JSString) (x : CState) :
    scrollPulse r (setIndic v x) = setIndic v (scrollPulse r x) := by
  cases r with
  | elemRef i =>
    cases hg : x.doc.elems[i]? with
    | none => simp [scrollPulse, setIndic, hg]
    | some e => simp [scrollPulse, setIndic, hg]
  | slotRef j =>
    cases hg : x.doc.slots[j]? with
    | none => simp [scrollPulse, setIndic, hg]
    | some sl => cases sl <;> simp [scrollPulse, setIndic, hg]

/-- In-place decoration without a pulse commutes with overwriting the
indicator. -/
theorem highlightSetIndic (i : Nat) (st m : JSString) (v : Option JSString) (x : CState) :
    highlightExistingElement i st m false (setIndic v x) =
      setIndic v (highlightExistingElement i st m false x) := by
  cases hg : x.doc.elems[i]? with
  | none => simp [highlightExistingElement, setIndic, hg]
  | some e =>
    have hb := badgeStepSetIndic st x.doc v (decorateBase st m e)
    simp [highlightExistingElement, setIndic, hg, hb]

/-- `findAndScrollToText` without a pulse never reads the indicator: its
result on a state with an overwritten indicator is the original result
with the same overwrite. -/
theorem findScrollSetIndic (t st m : JSString) (v : Option JSString) (x : CState) :
    findAndScrollToText t st m false (setIndic v x) =
      ((findAndScrollToText t st m false x).1,
        setIndic v (findAndScrollToText t st m false x).2) := by
  cases hm : findBestMatchElement
      { x.doc with elems := x.doc.elems.map defocusEl, slots := x.doc.slots.map defocusSlot }
      t (extractKeyValue t) with
  | some mr =>
    have hm2 : findBestMatchElement
        { x.doc with
            elems := x.doc.elems.map defocusEl
            slots := x.doc.slots.map defocusSlot
            indicator := v }
        t (extractKeyValue t) = some mr := hm
    have hh := highlightSetIndic mr.index st m v
      ⟨{ x.doc with elems := x.doc.elems.map defocusEl, slots := x.doc.slots.map defocusSlot },
        x.registry⟩
    simp only [setIndic] at hh
    simp only [findAndScrollToText, setIndic, Bool.false_eq_true, if_false, hm, hm2, hh]
  | none =>
    have hm2 : findBestMatchElement
        { x.doc with
            elems := x.doc.elems.map defocusEl
            slots := x.doc.slots.map defocusSlot
            indicator := v }
        t (extractKeyValue t) = none := hm
    cases hw : findWrapTarget (searchVariants t (extractKeyValue t)) 0
        (x.doc.slots.map defocusSlot) with
    | some jt =>
      have hsp := scrollPulseSetIndic (Ref.slotRef jt.1) v
        ⟨{ x.doc with
             elems := x.doc.elems.map defocusEl
             slots := (x.doc.slots.map defocusSlot).set jt.1
               (Slot.wrapped ⟨jt.2.1, st, defaultMsg m, jt.2.2, true, true⟩) },
          x.registry ++ [Ref.slotRef jt.1]⟩
      simp only [setIndic] at hsp
      simp only [findAndScrollToText, setIndic, Bool.false_eq_true, if_false, hm, hm2, hw, hsp]
    | none =>
      simp only [findAndScrollToText, setIndic, Bool.false_eq_true, if_false, hm, hm2, hw]

/-- One iteration of the apply loop commutes with overwriting the
indicator. -/
theorem applyStepSetIndic (v : Option JSString) (x : CState) (h : HL) :
    applyStep (setIndic v x) h = setIndic v (applyStep x h) := by
  unfold applyStep
  rw [findScrollSetIndic]

/-- The whole apply loop commutes with overwriting the indicator. -/
theorem applyStepsSetIndic (hs : List HL) (v : Option JSString) (x : CState) :
    applySteps hs (setIndic v x) = setIndic v (applySteps hs x) := by
  induction hs generalizing x with
  | nil => rfl
  | cons h rest ih =>
    show applySteps rest (applyStep (setIndic v x) h) = _
    rw [applyStepSetIndic, ih]
    rfl

/-- A registry restore commutes with overwriting the indicator. -/
theorem restoreRefSetIndic (d : Doc) (v : Option JSString) (r : Ref) :
    restoreRef { d with indicator := v } r = { restoreRef d r with indicator := v } := by
  cases r with
  | elemRef i =>
    cases hg : d.elems[i]? with
    | none => simp [restoreRef, hg]
    | some e => simp [restoreRef, hg]
  | slotRef j =>
    cases hg : d.slots[j]? with
    | none => simp [restoreRef, hg]
    | some sl => cases sl <;> simp [restoreRef, hg]

/-- The registry-restore fold commutes with overwriting the indicator. -/
theorem foldRestoreSetIndic (rs : List Ref) (d : Doc) (v : Option JSString) :
    rs.foldl restoreRef { d with indicator := v } =
      { rs.foldl restoreRef d with indicator := v } := by
  induction rs generalizing d with
  | nil => rfl
  | cons r rest ih =>
    show rest.foldl restoreRef (restoreRef { d with indicator := v } r) = _
    rw [restoreRefSetIndic, ih]
    rfl

/-- `cleanupHighlights` commutes with overwriting the indicator. -/
theorem cleanupSetIndic (v : Option JSString) (x : CState) :
    cleanupHighlights (setIndic v x) = setIndic v (cleanupHighlights x) := by
  unfold cleanupHighlights setIndic
  rw [show ({ x with doc := { x.doc with indicator := v } } : CState).registry = x.registry from rfl,
      show ({ x with doc := { x.doc with indicator := v } } : CState).doc = { x.doc with indicator := v } from rfl,
      foldRestoreSetIndic]

/-- `cleanupHighlights` is idempotent: it empties the registry, so the
second run restores nothing, and the badge filter and badge-children
reset stabilise after one pass. -/
theorem cleanupIdem (x : CState) :
    cleanupHighlights (cleanupHighlights x) = cleanupHighlights x := by
  unfold cleanupHighlights
  simp only [List.foldl_nil]
  rw [List.filter_map, show ((fun e : El => ¬ e.classes.contains (js "oli-badge") : El → Bool) ∘ zeroBadgeKids) = (fun e : El => ¬ e.classes.contains (js "oli-badge") : El → Bool) from rfl]
  rw [List.filter_filter]
  simp only [Bool.and_self]
  rw [List.map_map, show (zeroBadgeKids ∘ zeroBadgeKids) = zeroBadgeKids from funext (fun e => rfl)]
  rw [List.map_map, show (clearWrapBadge ∘ clearWrapBadge) = clearWrapBadge from funext (fun sl => by cases sl <;> rfl)]

/-- The apply handler absorbs a preceding explicit clear: the clear is
cleanup plus an indicator removal, the handler starts with its own
cleanup (idempotence kills the duplicate), and nothing the handler does
before installing the fresh indicator reads the old one. -/
theorem applyRisksClear (F : List HL) (ov : JSString) (x : CState) :
    applyRisks F ov (clearHighlightsMsg x) = applyRisks F ov x := by
  unfold applyRisks clearHighlightsMsg
  rw [show ({ cleanupHighlights x with doc := { (cleanupHighlights x).doc with indicator := none } } : CState) = setIndic none (cleanupHighlights x) from rfl]
  rw [cleanupSetIndic, cleanupIdem, applyStepsSetIndic]
  rfl

/-- C3 (amended): `apply(F1); apply(F2)` leaves the same state as
`apply(F1); clear(); apply(F2)` — the apply handler performs an implicit
clear whose effect matches an explicit clear exactly — for every starting
state, every pair of finding lists and every pair of overall statuses. -/
theorem c3_amended (s : CState) (F1 F2 : List HL) (ov1 ov2 : JSString) :
    applyRisks F2 ov2 (applyRisks F1 ov1 s) =
      applyRisks F2 ov2 (clearHighlightsMsg (applyRisks F1 ov1 s)) :=
  (applyRisksClear F2 ov2 (applyRisks F1 ov1 s)).symm

/-! ### Restorability of the decorated document (claim C1) -/

theorem alookupNoneForall {α : Type} {m : List (JSString × α)} {k : JSString}
    (h : alookup m k = none) : ∀ p ∈ m, p.1 ≠ k := by
  induction m with
  | nil => intro p hp; cases hp
  | cons q ps ih =>
    rw [alookup] at h
    by_cases hq : q.1 = k
    · rw [if_pos hq] at h; cases h
    · rw [if_neg hq] at h
      intro p hp
      rcases List.mem_cons.mp hp with he | ht
      · rw [he]; exact hq
      · exact ih h p ht

theorem setDataAppend {m : List (JSString × JSString)} {k : JSString}
    (h : ∀ p ∈ m, p.1 ≠ k) (v : JSString) : setData m k v = m ++ [(k, v)] := by
  unfold setData
  rw [if_neg]
  intro hany
  rcases List.any_eq_true.mp hany with ⟨p, hp, hpk⟩
  exact h p hp (by simpa using hpk)

theorem delDataAppend (a b : List (JSString × JSString)) (k : JSString) :
    delData (a ++ b) k = delData a k ++ delData b k := by
  unfold delData
  exact List.filter_append a b

theorem delDataId {m : List (JSString × JSString)} {k : JSString}
    (h : ∀ p ∈ m, p.1 ≠ k) : delData m k = m := by
  unfold delData
  rw [List.filter_eq_self]
  intro p hp
  simpa using h p hp

theorem forallNeAppend {a b : List (JSString × JSString)} {k : JSString}
    (ha : ∀ p ∈ a, p.1 ≠ k) (hb : ∀ p ∈ b, p.1 ≠ k) :
    ∀ p ∈ a ++ b, p.1 ≠ k := by
  intro p hp
  rcases List.mem_append.mp hp with h | h
  · exact ha p h
  · exact hb p h

theorem containsFalseOfNotMem {cs : List JSString} {c : JSString}
    (h : c ∉ cs) : cs.contains c = false := by
  cases hc : cs.contains c with
  | false => rfl
  | true => exact absurd (List.mem_of_elem_eq_true hc) h

theorem addClsAppend {cs : List JSString} {c : JSString}
    (h : cs.contains c = false) : addCls cs c = cs ++ [c] := by
  unfold addCls
  rw [h]
  rfl

theorem removeClsAppendSelf {cs : List JSString} {c : JSString}
    (h : cs.contains c = false) : removeCls (cs ++ [c]) c = cs := by
  unfold removeCls
  rw [List.filter_append, List.filter_eq_self.mpr]
  · show cs ++ List.filter _ [c] = cs
    have : List.filter (fun x => decide (x ≠ c)) [c] = [] := by
      simp
    rw [this, List.append_nil]
  · intro x hx
    simp only [decide_eq_true_eq]
    intro heq
    subst heq
    exact absurd hx (notMemOfContainsFalse h)


theorem delChainNil :
    ∀ (L : List (JSString × JSString)),
      (∀ p ∈ L, p.1 = kOliStatus ∨ p.1 = kOliMessage ∨ p.1 = kOliOriginalStyle ∨
        p.1 = kOliBadgeCreated ∨ p.1 = kOliMouseEnter ∨ p.1 = kOliMouseLeave ∨
        p.1 = kBadgeScrollHandler) →
      delData (delData (delData (delData (delData (delData (delData L
        kOliStatus) kOliMessage) kOliOriginalStyle) kOliBadgeCreated)
        kOliMouseEnter) kOliMouseLeave) kBadgeScrollHandler = [] := by
  intro L
  induction L with
  | nil => intro _; rfl
  | cons p t ih =>
    intro h
    have hih := ih (fun q hq => h q (List.mem_cons_of_mem p hq))
    rcases h p (List.mem_cons_self p t) with hk | hk | hk | hk | hk | hk | hk <;>
      simp +decide [delData, List.filter_cons, hk] <;>
      simpa [delData] using hih

theorem elSimAssembled (e : El) (L : List (JSString × JSString))
    (sty : Option JSString) (ls : List JSString) (bk : Nat)
    (hHL : e.classes.contains (js "oli-highlight") = false)
    (hFC : e.classes.contains (js "oli-focus-highlight") = false)
    (hBG : e.classes.contains (js "oli-badge") = false)
    (hDK : ∀ k ∈ engineDataKeys, getData e.dataAttrs k = none)
    (hBK : e.badgeKids = 0)
    (hLo : alookup L kOliOriginalStyle = some (e.styleAttr.getD []))
    (hLk : ∀ p ∈ L, p.1 = kOliStatus ∨ p.1 = kOliMessage ∨ p.1 = kOliOriginalStyle ∨
      p.1 = kOliBadgeCreated ∨ p.1 = kOliMouseEnter ∨ p.1 = kOliMouseLeave ∨
      p.1 = kBadgeScrollHandler) :
    ElSim e { e with
      classes := e.classes ++ [js "oli-highlight"]
      dataAttrs := e.dataAttrs ++ L
      styleAttr := sty
      listeners := ls
      badgeKids := bk } := by
  have hne : ∀ k ∈ engineDataKeys, ∀ p ∈ e.dataAttrs, p.1 ≠ k := fun k hk =>
    alookupNoneForall (hDK k hk)
  refine ⟨?_, ?_, ?_⟩
  · have hcls : removeCls (removeCls (e.classes ++ [js "oli-highlight"])
        (js "oli-highlight")) (js "oli-focus-highlight") = e.classes := by
      rw [removeClsAppendSelf hHL, removeClsOfNotContains hFC]
    have hsty : getData (e.dataAttrs ++ L) kOliOriginalStyle =
        some (e.styleAttr.getD []) := by
      show alookup (e.dataAttrs ++ L) kOliOriginalStyle = _
      rw [alookupAppendNone
        (hDK kOliOriginalStyle (by decide) : alookup e.dataAttrs kOliOriginalStyle = none), hLo]
    have hdat : delData (delData (delData (delData (delData (delData
        (e.dataAttrs ++ L) kOliStatus) kOliMessage) kOliOriginalStyle)
        kOliBadgeCreated) kOliMouseEnter) kOliMouseLeave = e.dataAttrs ++
        delData (delData (delData (delData (delData (delData L
        kOliStatus) kOliMessage) kOliOriginalStyle) kOliBadgeCreated)
        kOliMouseEnter) kOliMouseLeave := by
      rw [delDataAppend, delDataId (hne kOliStatus (by decide)),
          delDataAppend, delDataId (hne kOliMessage (by decide)),
          delDataAppend, delDataId (hne kOliOriginalStyle (by decide)),
          delDataAppend, delDataId (hne kOliBadgeCreated (by decide)),
          delDataAppend, delDataId (hne kOliMouseEnter (by decide)),
          delDataAppend, delDataId (hne kOliMouseLeave (by decide))]
    show scrubEl (zeroBadgeKids (restoreEl _)) = scrubEl (zeroBadgeKids e)
    simp only [restoreEl, scrubEl, zeroBadgeKids]
    simp only [hcls, hsty, hdat]
    rw [delDataAppend, delDataId (hne kBadgeScrollHandler (by decide)),
        delChainNil L hLk, List.append_nil]
    cases hst : e.styleAttr with
    | none => simp [hBK]
    | some s => simp [hBK]
  · intro hc
    rcases List.mem_append.mp (List.mem_of_elem_eq_true hc) with hm | hm
    · exact notMemOfContainsFalse hBG hm
    · exact absurd (List.mem_singleton.mp hm) (by decide)
  · intro hc
    rcases List.mem_append.mp (List.mem_of_elem_eq_true hc) with hm | hm
    · exact notMemOfContainsFalse hFC hm
    · exact absurd (List.mem_singleton.mp hm) (by decide)

theorem elSimDecorated (st m : JSString) (dd : Doc) (e : El) (hcl : CleanEl e) :
    ElSim e (attachHover (badgeStep st dd (decorateBase st m e)).1) := by
  obtain ⟨hHL0, hFC0, hBG0, hDK, hBK⟩ := hcl
  have hHL : e.classes.contains (js "oli-highlight") = false := Bool.eq_false_iff.mpr hHL0
  have hFC : e.classes.contains (js "oli-focus-highlight") = false := Bool.eq_false_iff.mpr hFC0
  have hBG : e.classes.contains (js "oli-badge") = false := Bool.eq_false_iff.mpr hBG0
  have hKey : ∀ k ∈ engineDataKeys, ∀ p ∈ e.dataAttrs, p.1 ≠ k := fun k hk =>
    alookupNoneForall (hDK k hk)
  have step : ∀ (T : List (JSString × JSString)) (k v : JSString),
      (∀ p ∈ T, p.1 ≠ k) → k ∈ engineDataKeys →
      setData (e.dataAttrs ++ T) k v = e.dataAttrs ++ (T ++ [(k, v)]) := by
    intro T k v hT hk
    rw [setDataAppend (forallNeAppend (hKey k hk) hT) v, List.append_assoc]
  have hE2 : decorateBase st m e = { e with
      classes := e.classes ++ [js "oli-highlight"]
      dataAttrs := e.dataAttrs ++ [(kOliStatus, st), (kOliMessage, defaultMsg m),
        (kOliOriginalStyle, e.styleAttr.getD [])]
      styleAttr := some (highlightStyleCss (e.styleAttr.getD []) (colorsOf st)) } := by
    simp only [decorateBase]
    rw [addClsAppend hHL,
        setDataAppend (hKey kOliStatus (by decide)) st,
        show setData (e.dataAttrs ++ [(kOliStatus, st)]) kOliMessage (defaultMsg m) =
          e.dataAttrs ++ [(kOliStatus, st), (kOliMessage, defaultMsg m)] from
          step [(kOliStatus, st)] kOliMessage (defaultMsg m)
            (by intro p hp; fin_cases hp; simp +decide) (by decide)]
    rw [show setData (e.dataAttrs ++ [(kOliStatus, st), (kOliMessage, defaultMsg m)])
          kOliOriginalStyle
          (({ e with
              classes := e.classes ++ [js "oli-highlight"]
              dataAttrs := e.dataAttrs ++ [(kOliStatus, st), (kOliMessage, defaultMsg m)] } : El).styleAttr.getD []) =
        e.dataAttrs ++ [(kOliStatus, st), (kOliMessage, defaultMsg m),
          (kOliOriginalStyle, e.styleAttr.getD [])] from
        step [(kOliStatus, st), (kOliMessage, defaultMsg m)] kOliOriginalStyle _
          (by intro p hp; fin_cases hp <;> simp +decide) (by decide)]
  have hbs : ∀ (x : El) (d : Doc), (badgeStep st d x).1 = x ∨
      (badgeStep st d x).1 = { x with dataAttrs := setData (setData x.dataAttrs
        kBadgeScrollHandler handlerString) kOliBadgeCreated (js "true") } ∨
      (∃ sty, (badgeStep st d x).1 = { x with styleAttr := sty, badgeKids := x.badgeKids + 1 }) := by
    intro x d
    simp only [badgeStep]
    split_ifs <;>
      first
        | (left; rfl)
        | (right; left; rfl)
        | (right; right; exact ⟨_, rfl⟩)
  rw [hE2]
  rcases hbs { e with
      classes := e.classes ++ [js "oli-highlight"]
      dataAttrs := e.dataAttrs ++ [(kOliStatus, st), (kOliMessage, defaultMsg m),
        (kOliOriginalStyle, e.styleAttr.getD [])]
      styleAttr := some (highlightStyleCss (e.styleAttr.getD []) (colorsOf st)) } dd
    with h | h | ⟨sty, h⟩ <;>
    rw [h] <;> simp only [attachHover] <;> try dsimp only
  · rw [step [(kOliStatus, st), (kOliMessage, defaultMsg m),
        (kOliOriginalStyle, e.styleAttr.getD [])] kOliMouseEnter (js "attached")
        (by intro p hp; fin_cases hp <;> simp +decide) (by decide),
      step ([(kOliStatus, st), (kOliMessage, defaultMsg m),
        (kOliOriginalStyle, e.styleAttr.getD [])] ++ [(kOliMouseEnter, js "attached")])
        kOliMouseLeave (js "attached")
        (by intro p hp; simp at hp; rcases hp with h1 | h1 | h1 | h1 <;> simp [h1] <;> simp +decide)
        (by decide)]
    exact elSimAssembled e _ _ _ _ hHL hFC hBG hDK hBK
      (by simp +decide [alookup])
      (by intro p hp; simp at hp; rcases hp with h1 | h1 | h1 | h1 | h1 <;> simp +decide [h1])
  · rw [step [(kOliStatus, st), (kOliMessage, defaultMsg m),
        (kOliOriginalStyle, e.styleAttr.getD [])] kBadgeScrollHandler handlerString
        (by intro p hp; fin_cases hp <;> simp +decide) (by decide),
      step ([(kOliStatus, st), (kOliMessage, defaultMsg m),
        (kOliOriginalStyle, e.styleAttr.getD [])] ++ [(kBadgeScrollHandler, handlerString)])
        kOliBadgeCreated (js "true")
        (by intro p hp; simp at hp; rcases hp with h1 | h1 | h1 | h1 <;> simp [h1] <;> simp +decide)
        (by decide),
      step (([(kOliStatus, st), (kOliMessage, defaultMsg m),
        (kOliOriginalStyle, e.styleAttr.getD [])] ++ [(kBadgeScrollHandler, handlerString)]) ++
        [(kOliBadgeCreated, js "true")])
        kOliMouseEnter (js "attached")
        (by intro p hp; simp at hp; rcases hp with h1 | h1 | h1 | h1 | h1 <;> simp [h1] <;> simp +decide)
        (by decide),
      step ((([(kOliStatus, st), (kOliMessage, defaultMsg m),
        (kOliOriginalStyle, e.styleAttr.getD [])] ++ [(kBadgeScrollHandler, handlerString)]) ++
        [(kOliBadgeCreated, js "true")]) ++ [(kOliMouseEnter, js "attached")])
        kOliMouseLeave (js "attached")
        (by intro p hp; simp at hp; rcases hp with h1 | h1 | h1 | h1 | h1 | h1 <;> simp [h1] <;> simp +decide)
        (by decide)]
    exact elSimAssembled e _ _ _ _ hHL hFC hBG hDK hBK
      (by simp +decide [alookup])
      (by intro p hp; simp at hp;
          rcases hp with h1 | h1 | h1 | h1 | h1 | h1 | h1 <;> simp +decide [h1])
  · rw [step [(kOliStatus, st), (kOliMessage, defaultMsg m),
        (kOliOriginalStyle, e.styleAttr.getD [])] kOliMouseEnter (js "attached")
        (by intro p hp; fin_cases hp <;> simp +decide) (by decide),
      step ([(kOliStatus, st), (kOliMessage, defaultMsg m),
        (kOliOriginalStyle, e.styleAttr.getD [])] ++ [(kOliMouseEnter, js "attached")])
        kOliMouseLeave (js "attached")
        (by intro p hp; simp at hp; rcases hp with h1 | h1 | h1 | h1 <;> simp [h1] <;> simp +decide)
        (by decide)]
    exact elSimAssembled e _ _ _ _ hHL hFC hBG hDK hBK
      (by simp +decide [alookup])
      (by intro p hp; simp at hp; rcases hp with h1 | h1 | h1 | h1 | h1 <;> simp +decide [h1])

theorem simRefl (d : Doc) : Sim d ⟨d, []⟩ :=
  ⟨rfl, rfl, fun _ _ => rfl, fun _ _ => rfl,
   fun _ hi => absurd hi (List.not_mem_nil _),
   fun _ hj => absurd hj (List.not_mem_nil _)⟩

theorem simDefocus {d : Doc} {x : CState} (hd : CleanDoc d) (hs : Sim d x) :
    Sim d (defocusState x) := by
  obtain ⟨hdE, hdS, hdB, hdI⟩ := hd
  obtain ⟨hle, hls, hue, hus, hre, hrs⟩ := hs
  refine ⟨by simp [defocusState, hle], by simp [defocusState, hls], ?_, ?_, ?_, ?_⟩
  · intro i hi
    show (x.doc.elems.map defocusEl)[i]? = d.elems[i]?
    rw [List.getElem?_map, hue i hi]
    cases hg : d.elems[i]? with
    | none => rfl
    | some e0 =>
      have hcl := hdE e0 (List.getElem?_mem hg)
      simp [defocusElId (Bool.eq_false_iff.mpr hcl.2.1)]
  · intro j hj
    show (x.doc.slots.map defocusSlot)[j]? = d.slots[j]?
    rw [List.getElem?_map, hus j hj]
    cases hg : d.slots[j]? with
    | none => rfl
    | some sl =>
      rcases hdS sl (List.getElem?_mem hg) with ⟨t, ht⟩
      subst ht
      rfl
  · intro i hi
    rcases hre i hi with ⟨e0, e, hde, hxe, hce, hsim⟩
    refine ⟨e0, e, hde, ?_, hce, hsim⟩
    show (x.doc.elems.map defocusEl)[i]? = some e
    rw [List.getElem?_map, hxe]
    simp [defocusElId (Bool.eq_false_iff.mpr hsim.2.2)]
  · intro j hj
    rcases hrs j hj with ⟨t, w, hds, hys, hw⟩
    refine ⟨t, { w with focusCls := false }, hds, ?_, hw⟩
    show (x.doc.slots.map defocusSlot)[j]? = _
    rw [List.getElem?_map, hys]
    rfl

theorem badgeStepFrame (st : JSString) (d : Doc) (e2 : El) :
    (badgeStep st d e2).2.elems = d.elems ∧ (badgeStep st d e2).2.slots = d.slots := by
  simp only [badgeStep]
  split_ifs <;> exact ⟨rfl, rfl⟩

theorem findWrapTargetSome (vs : List JSString) :
    ∀ (sl : List Slot) (n j : Nat) (t v : JSString),
      findWrapTarget vs n sl = some (j, t, v) →
      ∃ k, j = n + k ∧ sl[k]? = some (Slot.textNode t) := by
  intro sl
  induction sl with
  | nil => intro n j t v h; cases h
  | cons s rest ih =>
    intro n j t v h
    cases s with
    | textNode t0 =>
      rw [findWrapTarget] at h
      by_cases htr : trimJS t0 = []
      · rw [if_pos htr] at h
        rcases ih (n + 1) j t v h with ⟨k, hk, hsl⟩
        exact ⟨k + 1, by omega, by simpa using hsl⟩
      · rw [if_neg htr] at h
        cases hf : vs.find? (fun w => containsSub t0 w) with
        | none =>
          rw [hf] at h
          rcases ih (n + 1) j t v h with ⟨k, hk, hsl⟩
          exact ⟨k + 1, by omega, by simpa using hsl⟩
        | some v0 =>
          rw [hf] at h
          injection h with h'
          obtain ⟨h1, h2, h3⟩ : n = j ∧ t0 = t ∧ v0 = v := by
            have := h'
            simp [Prod.ext_iff] at this
            exact ⟨this.1, this.2.1, this.2.2⟩
          exact ⟨0, by omega, by simp [← h2]⟩
    | wrapped w =>
      rw [findWrapTarget] at h
      rcases ih (n + 1) j t v h with ⟨k, hk, hsl⟩
      exact ⟨k + 1, by omega, by simpa using hsl⟩

theorem simHighlight {d : Doc} {x : CState} (i : Nat) (st m : JSString)
    (hd : CleanDoc d) (hs : Sim d x)
    (hnd : (highlightExistingElement i st m false x).registry.Nodup) :
    Sim d (highlightExistingElement i st m false x) := by
  obtain ⟨hle, hls, hue, hus, hre, hrs⟩ := hs
  cases hg : x.doc.elems[i]? with
  | none =>
    have hid : highlightExistingElement i st m false x = x := by
      simp [highlightExistingElement, hg]
    rw [hid]
    exact ⟨hle, hls, hue, hus, hre, hrs⟩
  | some e =>
    have hfr := badgeStepFrame st x.doc (decorateBase st m e)
    have hres : highlightExistingElement i st m false x =
        ⟨{ (badgeStep st x.doc (decorateBase st m e)).2 with
             elems := (badgeStep st x.doc (decorateBase st m e)).2.elems.set i
               (attachHover (badgeStep st x.doc (decorateBase st m e)).1) },
          x.registry ++ [Ref.elemRef i]⟩ := by
      simp [highlightExistingElement, hg]
    have hE : (highlightExistingElement i st m false x).doc.elems =
        x.doc.elems.set i (attachHover (badgeStep st x.doc (decorateBase st m e)).1) := by
      rw [hres, hfr.1]
    have hS : (highlightExistingElement i st m false x).doc.slots = x.doc.slots := by
      rw [hres]
      exact hfr.2
    have hR : (highlightExistingElement i st m false x).registry =
        x.registry ++ [Ref.elemRef i] := by
      rw [hres]
    have hni : Ref.elemRef i ∉ x.registry := by
      rw [hR] at hnd
      rcases List.nodup_append.mp hnd with ⟨-, -, hdisj⟩
      intro hin
      exact hdisj hin (List.mem_singleton.mpr rfl)
    have hdi : d.elems[i]? = some e := by
      rw [← hue i hni]
      exact hg
    have hcl : CleanEl e := (hd.1) e (List.getElem?_mem hdi)
    refine ⟨?_, ?_, ?_, ?_, ?_, ?_⟩
    · rw [hE, List.length_set]
      exact hle
    · rw [hS]
      exact hls
    · intro i' hi'
      rw [hR] at hi'
      have hio : Ref.elemRef i' ∉ x.registry := fun hmem =>
        hi' (List.mem_append_left _ hmem)
      have hne : i' ≠ i := by
        intro he
        subst he
        exact hi' (List.mem_append_right _ (List.mem_singleton.mpr rfl))
      rw [hE, List.getElem?_set_ne (fun he => hne he.symm)]
      exact hue i' hio
    · intro j hj
      rw [hR] at hj
      have hjo : Ref.slotRef j ∉ x.registry := fun hmem =>
        hj (List.mem_append_left _ hmem)
      rw [hS]
      exact hus j hjo
    · intro i' hi'
      rw [hR] at hi'
      rcases List.mem_append.mp hi' with hold | hnew
      · have hne : i' ≠ i := by
          intro he
          subst he
          exact hni hold
        rcases hre i' hold with ⟨e0, e', hde, hxe, hce, hsim⟩
        refine ⟨e0, e', hde, ?_, hce, hsim⟩
        rw [hE, List.getElem?_set_ne (fun he => hne he.symm)]
        exact hxe
      · have he : i' = i := by
          have := List.mem_singleton.mp hnew
          injection this
        subst he
        refine ⟨e, attachHover (badgeStep st x.doc (decorateBase st m e)).1, hdi, ?_, hcl, ?_⟩
        · rw [hE]
          have hlen : i' < x.doc.elems.length := by
            by_contra hge
            rw [List.getElem?_eq_none (Nat.le_of_not_lt hge)] at hg
            cases hg
          rw [List.getElem?_set_self hlen]
        · exact elSimDecorated st m x.doc e hcl
    · intro j hj
      rw [hR] at hj
      rcases List.mem_append.mp hj with hold | hnew
      · rcases hrs j hold with ⟨t, w, hds, hys, hw⟩
        refine ⟨t, w, hds, ?_, hw⟩
        rw [hS]
        exact hys
      · cases List.mem_singleton.mp hnew

theorem simWrap {d : Doc} {y : CState} (j : Nat) (t0 : JSString) (w0 : WrapSpan)
    (hw0 : w0.original = t0) (hd : CleanDoc d) (hs : Sim d y)
    (hjt : y.doc.slots[j]? = some (Slot.textNode t0)) :
    Sim d (scrollPulse (Ref.slotRef j)
      ⟨{ y.doc with slots := y.doc.slots.set j (Slot.wrapped w0) },
        y.registry ++ [Ref.slotRef j]⟩) := by
  obtain ⟨hle, hls, hue, hus, hre, hrs⟩ := hs
  have hlen : j < y.doc.slots.length := by
    by_contra hge
    rw [List.getElem?_eq_none (Nat.le_of_not_lt hge)] at hjt
    cases hjt
  have hget : (y.doc.slots.set j (Slot.wrapped w0))[j]? = some (Slot.wrapped w0) :=
    List.getElem?_set_self (by simpa using hlen)
  have hres : scrollPulse (Ref.slotRef j)
      (⟨{ y.doc with slots := y.doc.slots.set j (Slot.wrapped w0) },
        y.registry ++ [Ref.slotRef j]⟩ : CState) =
      ⟨{ y.doc with
           slots := (y.doc.slots.set j (Slot.wrapped w0)).set j
             (Slot.wrapped { w0 with focusCls := true })
           focusStyles := true },
        y.registry ++ [Ref.slotRef j]⟩ := by
    simp [scrollPulse, hget]
  rw [hres, List.set_set]
  have hfresh : Ref.slotRef j ∉ y.registry := by
    intro hin
    rcases hrs j hin with ⟨t, w, -, hys, -⟩
    rw [hjt] at hys
    cases hys
  refine ⟨hle, by simpa using hls, ?_, ?_, ?_, ?_⟩
  · intro i hi
    exact hue i (fun hmem => hi (List.mem_append_left _ hmem))
  · intro j' hj'
    have hjo : Ref.slotRef j' ∉ y.registry := fun hmem =>
      hj' (List.mem_append_left _ hmem)
    have hne : j' ≠ j := by
      intro he
      subst he
      exact hj' (List.mem_append_right _ (List.mem_singleton.mpr rfl))
    show (y.doc.slots.set j (Slot.wrapped { w0 with focusCls := true }))[j']? = _
    rw [List.getElem?_set_ne (fun he => hne he.symm)]
    exact hus j' hjo
  · intro i hi
    rcases List.mem_append.mp hi with hold | hnew
    · exact hre i hold
    · cases List.mem_singleton.mp hnew
  · intro j' hj'
    rcases List.mem_append.mp hj' with hold | hnew
    · rcases hrs j' hold with ⟨t, w, hds, hys, hw⟩
      have hne : j' ≠ j := by
        intro he
        subst he
        rw [hjt] at hys
        cases hys
      refine ⟨t, w, hds, ?_, hw⟩
      show (y.doc.slots.set j (Slot.wrapped { w0 with focusCls := true }))[j']? = _
      rw [List.getElem?_set_ne (fun he => hne he.symm)]
      exact hys
    · have he : j' = j := by
        have := List.mem_singleton.mp hnew
        injection this
      subst he
      refine ⟨t0, { w0 with focusCls := true }, ?_, ?_, hw0⟩
      · rw [← hus j' hfresh]
        exact hjt
      · show (y.doc.slots.set j' (Slot.wrapped { w0 with focusCls := true }))[j']? = _
        rw [List.getElem?_set_self (by simpa using hlen)]

theorem applyStepShape (x : CState) (h : HL) :
    applyStep x h = defocusState x ∨
    (∃ i, applyStep x h =
      highlightExistingElement i h.status (js "Risk element detected") false (defocusState x)) ∨
    (∃ j t v, (defocusState x).doc.slots[j]? = some (Slot.textNode t) ∧
      applyStep x h = scrollPulse (Ref.slotRef j)
        ⟨{ (defocusState x).doc with
             slots := (defocusState x).doc.slots.set j
               (Slot.wrapped ⟨t, h.status, defaultMsg (js "Risk element detected"), v, true, true⟩) },
          (defocusState x).registry ++ [Ref.slotRef j]⟩) := by
  cases hm : findBestMatchElement
      { x.doc with elems := x.doc.elems.map defocusEl, slots := x.doc.slots.map defocusSlot }
      h.text (extractKeyValue h.text) with
  | some mr =>
    refine Or.inr (Or.inl ⟨mr.index, ?_⟩)
    simp only [applyStep, findAndScrollToText, Bool.false_eq_true, if_false, hm, defocusState]
  | none =>
    cases hw : findWrapTarget (searchVariants h.text (extractKeyValue h.text)) 0
        (x.doc.slots.map defocusSlot) with
    | some jt =>
      obtain ⟨j, t, v⟩ := jt
      rcases findWrapTargetSome _ _ _ _ _ _ hw with ⟨k, hk, hsl⟩
      refine Or.inr (Or.inr ⟨j, t, v, ?_, ?_⟩)
      · show (x.doc.slots.map defocusSlot)[j]? = some (Slot.textNode t)
        rw [hk, Nat.zero_add]
        exact hsl
      · simp only [applyStep, findAndScrollToText, Bool.false_eq_true, if_false, hm, hw,
          defocusState]
    | none =>
      refine Or.inl ?_
      simp only [applyStep, findAndScrollToText, Bool.false_eq_true, if_false, hm, hw,
        defocusState]

theorem scrollPulseRegistry (r : Ref) (x : CState) :
    (scrollPulse r x).registry = x.registry := by
  cases r with
  | elemRef i => cases hg : x.doc.elems[i]? <;> simp [scrollPulse, hg]
  | slotRef j =>
    cases hg : x.doc.slots[j]? with
    | none => simp [scrollPulse, hg]
    | some sl => cases sl <;> simp [scrollPulse, hg]

theorem highlightRegistry (i : Nat) (st m : JSString) (b : Bool) (x : CState) :
    ∃ ts, (highlightExistingElement i st m b x).registry = x.registry ++ ts := by
  cases hg : x.doc.elems[i]? with
  | none =>
    refine ⟨[], ?_⟩
    simp [highlightExistingElement, hg]
  | some e =>
    refine ⟨[Ref.elemRef i], ?_⟩
    cases b with
    | false =>
      simp only [highlightExistingElement, hg]
      rfl
    | true =>
      simp only [highlightExistingElement, hg, if_true]
      rw [scrollPulseRegistry]

theorem applyStepRegistry (x : CState) (h : HL) :
    ∃ ts, (applyStep x h).registry = x.registry ++ ts := by
  rcases applyStepShape x h with heq | ⟨i, heq⟩ | ⟨j, t, v, _, heq⟩
  · exact ⟨[], by rw [heq]; exact (List.append_nil _).symm⟩
  · rcases highlightRegistry i h.status (js "Risk element detected") false (defocusState x)
      with ⟨ts, hts⟩
    exact ⟨ts, by rw [heq, hts]; rfl⟩
  · refine ⟨[Ref.slotRef j], ?_⟩
    rw [heq, scrollPulseRegistry]
    rfl

theorem applyStepsRegistryPrefix :
    ∀ (hs : List HL) (x : CState), x.registry <+: (applySteps hs x).registry := by
  intro hs
  induction hs with
  | nil => intro x; exact List.prefix_refl _
  | cons h rest ih =>
    intro x
    rcases applyStepRegistry x h with ⟨ts, hts⟩
    have h1 : x.registry <+: (applyStep x h).registry := ⟨ts, hts.symm⟩
    exact h1.trans (ih (applyStep x h))

theorem simStep {d : Doc} {x : CState} (h : HL) (hd : CleanDoc d) (hs : Sim d x)
    (hnd : (applyStep x h).registry.Nodup) : Sim d (applyStep x h) := by
  rcases applyStepShape x h with heq | ⟨i, heq⟩ | ⟨j, t, v, hjt, heq⟩
  · rw [heq]
    exact simDefocus hd hs
  · rw [heq]
    exact simHighlight i h.status (js "Risk element detected") hd (simDefocus hd hs)
      (by rw [← heq]; exact hnd)
  · rw [heq]
    exact simWrap j t ⟨t, h.status, defaultMsg (js "Risk element detected"), v, true, true⟩
      rfl hd (simDefocus hd hs) hjt

theorem simSteps {d : Doc} (hd : CleanDoc d) :
    ∀ (hs : List HL) (x : CState), Sim d x → (applySteps hs x).registry.Nodup →
      Sim d (applySteps hs x) := by
  intro hs
  induction hs with
  | nil => intro x hsim _; exact hsim
  | cons h rest ih =>
    intro x hsim hnd
    have hnd1 : (applyStep x h).registry.Nodup :=
      ((applyStepsRegistryPrefix rest (applyStep x h)).sublist).nodup hnd
    exact ih (applyStep x h) (simStep h hd hsim hnd1) hnd

theorem docExt {a b : Doc} (h1 : a.elems = b.elems) (h2 : a.slots = b.slots)
    (h3 : a.bodyBadges = b.bodyBadges) (h4 : a.indicator = b.indicator)
    (h5 : a.winListeners = b.winListeners) (h6 : a.animStyles = b.animStyles)
    (h7 : a.focusStyles = b.focusStyles) : a = b := by
  cases a
  cases b
  simp only [Doc.mk.injEq]
  exact ⟨h1, h2, h3, h4, h5, h6, h7⟩

theorem zeroBId {e : El} (h : e.badgeKids = 0) : zeroBadgeKids e = e := by
  show { e with badgeKids := 0 } = e
  rw [← h]

theorem cleanupCleanId {d : Doc} (hd : CleanDoc d) :
    cleanupHighlights ⟨d, []⟩ = ⟨d, []⟩ := by
  obtain ⟨hdE, hdS, hdB, hdI⟩ := hd
  have hfe : d.elems.filter (fun e => ¬ e.classes.contains (js "oli-badge")) = d.elems := by
    rw [List.filter_eq_self]
    intro e he
    simp only [Bool.not_eq_true, decide_eq_true_eq]
    exact Bool.eq_false_iff.mpr (hdE e he).2.2.1
  have hme : d.elems.map zeroBadgeKids = d.elems :=
    mapSelf _ _ (fun e he => zeroBId (hdE e he).2.2.2.2)
  have hms : d.slots.map clearWrapBadge = d.slots :=
    mapSelf _ _ (fun sl hsl => by
      rcases hdS sl hsl with ⟨t, ht⟩
      subst ht
      rfl)
  have hcd : cleanupHighlights ⟨d, []⟩ =
      ⟨{ d with
          elems := (d.elems.filter (fun e => ¬ e.classes.contains (js "oli-badge"))).map zeroBadgeKids
          slots := d.slots.map clearWrapBadge
          bodyBadges := [] }, []⟩ := rfl
  rw [hcd, hfe, hme, hms, ← hdB]

theorem simClear {d : Doc} {y : CState} (hd : CleanDoc d) (hs : Sim d y)
    (hnd : y.registry.Nodup) :
    scrubDoc ((clearHighlightsMsg y).doc) = scrubDoc d ∧
    (clearHighlightsMsg y).registry = [] := by
  obtain ⟨hdE, hdS, hdB, hdI⟩ := hd
  obtain ⟨hle, hls, hue, hus, hre, hrs⟩ := hs
  refine ⟨?_, rfl⟩
  have hnb : ∀ e ∈ y.doc.elems, e.classes.contains (js "oli-badge") = false := by
    intro e he
    rcases List.mem_iff_getElem?.mp he with ⟨i, hi⟩
    by_cases hreg : Ref.elemRef i ∈ y.registry
    · rcases hre i hreg with ⟨e0, e', hde, hye, hce, hsim⟩
      have : e = e' := by
        have h2 := hi.symm.trans hye
        injection h2
      rw [this]
      exact Bool.eq_false_iff.mpr hsim.2.1
    · have h2 := (hue i hreg).symm.trans hi
      exact Bool.eq_false_iff.mpr (hdE e (List.getElem?_mem h2)).2.2.1
  have hfe : (y.registry.foldl restoreRef y.doc).elems.filter
      (fun e => ¬ e.classes.contains (js "oli-badge")) =
      (y.registry.foldl restoreRef y.doc).elems := by
    rw [List.filter_eq_self]
    intro e he
    simp only [Bool.not_eq_true, decide_eq_true_eq]
    exact foldRestorePreservesElemPred (fun e => e.classes.contains (js "oli-badge") = false)
      (fun e hP => restoreElNoBadgeCls hP) y.registry y.doc hnb e he
  have hcleq : (clearHighlightsMsg y).doc =
      { (y.registry.foldl restoreRef y.doc) with
          elems := ((y.registry.foldl restoreRef y.doc).elems.filter
            (fun e => ¬ e.classes.contains (js "oli-badge"))).map zeroBadgeKids
          slots := (y.registry.foldl restoreRef y.doc).slots.map clearWrapBadge
          bodyBadges := []
          indicator := none } := rfl
  rw [hcleq, hfe]
  apply docExt
  · show ((y.registry.foldl restoreRef y.doc).elems.map zeroBadgeKids).map scrubEl =
      d.elems.map scrubEl
    apply List.ext_getElem?
    intro n
    rw [List.getElem?_map, List.getElem?_map, List.getElem?_map]
    by_cases hreg : Ref.elemRef n ∈ y.registry
    · rw [foldRestoreElemsMem y.registry y.doc n hnd hreg]
      rcases hre n hreg with ⟨e0, e', hde, hye, hce, hsim⟩
      rw [hye, hde]
      show some (scrubEl (zeroBadgeKids (restoreEl e'))) = some (scrubEl e0)
      rw [hsim.1, zeroBId hce.2.2.2.2]
    · rw [foldRestoreElemsNotMem y.registry y.doc n hreg, hue n hreg]
      cases hg : d.elems[n]? with
      | none => rfl
      | some e0 =>
        show some (scrubEl (zeroBadgeKids e0)) = some (scrubEl e0)
        rw [zeroBId (hdE e0 (List.getElem?_mem hg)).2.2.2.2]
  · show (y.registry.foldl restoreRef y.doc).slots.map clearWrapBadge = d.slots
    apply List.ext_getElem?
    intro n
    rw [List.getElem?_map]
    by_cases hreg : Ref.slotRef n ∈ y.registry
    · rw [foldRestoreSlotsMem y.registry y.doc n hnd hreg]
      rcases hrs n hreg with ⟨t, w, hds, hys, hw⟩
      rw [hys, hds]
      show some (clearWrapBadge (restoreSlot (Slot.wrapped w))) = some (Slot.textNode t)
      rw [show restoreSlot (Slot.wrapped w) = Slot.textNode w.original from rfl, hw]
      rfl
    · rw [foldRestoreSlotsNotMem y.registry y.doc n hreg, hus n hreg]
      cases hg : d.slots[n]? with
      | none => rfl
      | some sl =>
        rcases hdS sl (List.getElem?_mem hg) with ⟨t, ht⟩
        subst ht
        rfl
  · exact hdB.symm
  · exact hdI.symm
  · rfl
  · rfl
  · rfl

/-- C1 (amended): on a clean page whose findings decorate pairwise
distinct nodes, `apply(F)` followed by `clear()` restores the document up
to the known residues — the scrubbed cleared document equals the scrubbed
original and the registry is empty. -/
theorem c1_amended (d : Doc) (F : List HL) (ov : JSString)
    (hd : CleanDoc d)
    (hreg : (applyRisks F ov ⟨d, []⟩).registry.Nodup) :
    scrubDoc ((clearHighlightsMsg (applyRisks F ov ⟨d, []⟩)).doc) = scrubDoc d ∧
    (clearHighlightsMsg (applyRisks F ov ⟨d, []⟩)).registry = [] := by
  have hclean : cleanupHighlights (⟨d, []⟩ : CState) = ⟨d, []⟩ := cleanupCleanId hd
  have hr2 : applyRisks F ov ⟨d, []⟩ =
      { applySteps F (⟨d, []⟩ : CState) with
        doc := addFloatingIndicator ov (applySteps F (⟨d, []⟩ : CState)).doc } := by
    unfold applyRisks
    rw [hclean]
  have hrnod : (applySteps F (⟨d, []⟩ : CState)).registry.Nodup := by
    rw [hr2] at hreg
    exact hreg
  have hsim : Sim d (applySteps F (⟨d, []⟩ : CState)) :=
    simSteps hd F ⟨d, []⟩ (simRefl d) hrnod
  have hsim2 : Sim d (applyRisks F ov ⟨d, []⟩) := by
    rw [hr2]
    exact hsim
  exact simClear hd hsim2 (by rw [hr2]; exact hrnod)

/-- C1 witness: the amended statement on the clean sample page with its
critical finding. -/
theorem c1_amended_witness :
    CleanDoc sampleDoc ∧
    (applyRisks sampleFindings (js "NON_CONFORME") ⟨sampleDoc, []⟩).registry.Nodup ∧
    (scrubDoc ((clearHighlightsMsg (applyRisks sampleFindings (js "NON_CONFORME")
        ⟨sampleDoc, []⟩)).doc) = scrubDoc sampleDoc ∧
      (clearHighlightsMsg (applyRisks sampleFindings (js "NON_CONFORME")
        ⟨sampleDoc, []⟩)).registry = []) :=
  ⟨by decide, by decide,
    c1_amended sampleDoc sampleFindings (js "NON_CONFORME") (by decide) (by decide)⟩

end OLI
